import Mathlib

/-!
Verification of the legacy authcrypt `Encrypt` path of a DIDComm envelope
encryption component (Aries RFC 0019 style), together with a spec-modelled
`Decrypt` inverse.

Modelling conventions:
* byte strings are `List Nat` with values below 256; text is `List Char`;
* the injected randomness source is an explicit pool of bytes (`CState.pool`)
  threaded through every call, and `CState.ops` records which collaborator
  operations were invoked (the observable effects of a call);
* external collaborators (KMS key conversion, crypto boxes, the
  ChaCha20-Poly1305 AEAD) are parameters of the model, bundled in `Collab`;
  their functional contracts are the `Collab.Lawful` laws;
* fallible operations return `Except CryptoError α`; the source returns
  `nil, err` on every failure path, which `Except` models exactly;
* `base64.URLEncoding` and btcsuite `base58` are implemented concretely;
  JSON marshalling of the fixed wire structures is implemented concretely
  following the wire format (field names, order and casing).
-/

/-! ## Bytes and text -/

abbrev Str := List Char

abbrev allBytes (l : List Nat) : Prop := ∀ b ∈ l, b < 256

def charsToBytes (s : Str) : List Nat := s.map Char.toNat

def bytesToChars (bs : List Nat) : Str := bs.map Char.ofNat

def quoteChar : Char := '"'

abbrev noQuote (s : Str) : Prop := ∀ ch ∈ s, ch ≠ quoteChar

abbrev asciiStr (s : Str) : Prop := ∀ ch ∈ s, ch.toNat < 256

/-! ## base64 URL encoding (padded), as in Go `base64.URLEncoding` -/

def b64Alphabet : Str :=
  "ABCDEFGHIJKLMNOPQRSTUVWXYZabcdefghijklmnopqrstuvwxyz0123456789-_".toList

def padChar : Char := '='

def b64Sym (n : Nat) : Char := b64Alphabet.getD n 'A'

def b64Val (ch : Char) : Option Nat := b64Alphabet.findIdx? (fun c => c == ch)

/-- Encode bytes in base64url with padding: groups of three bytes become four
symbols; a final group of one or two bytes is padded with `=`. -/
def base64URLEncodeL : List Nat → Str
  | [] => []
  | [a] => [b64Sym (a / 4), b64Sym (a % 4 * 16), padChar, padChar]
  | [a, b] => [b64Sym (a / 4), b64Sym (a % 4 * 16 + b / 16), b64Sym (b % 16 * 4), padChar]
  | a :: b :: c :: rest =>
      b64Sym (a / 4) :: b64Sym (a % 4 * 16 + b / 16) :: b64Sym (b % 16 * 4 + c / 64) ::
        b64Sym (c % 64) :: base64URLEncodeL rest

/-- Decode padded base64url text back to bytes. -/
def base64URLDecodeL : Str → Option (List Nat)
  | [] => some []
  | c0 :: c1 :: c2 :: c3 :: rest =>
    match b64Val c0, b64Val c1 with
    | some s0, some s1 =>
      if c2 = padChar then
        if c3 = padChar then
          if rest = [] then some [s0 * 4 + s1 / 16] else none
        else none
      else
        match b64Val c2 with
        | some s2 =>
          if c3 = padChar then
            if rest = [] then some [s0 * 4 + s1 / 16, s1 % 16 * 16 + s2 / 4] else none
          else
            match b64Val c3 with
            | some s3 =>
              match base64URLDecodeL rest with
              | some bs =>
                  some ((s0 * 4 + s1 / 16) :: (s1 % 16 * 16 + s2 / 4) ::
                    (s2 % 4 * 64 + s3) :: bs)
              | none => none
            | none => none
        | none => none
    | _, _ => none
  | _ => none

/-! ## base58 (btcsuite alphabet): big-endian base conversion with one `1`
  per leading zero byte -/

def b58Alphabet : Str :=
  "123456789ABCDEFGHJKLMNPQRSTUVWXYZabcdefghijkmnopqrstuvwxyz".toList

def b58Sym (n : Nat) : Char := b58Alphabet.getD n '1'

def b58Val (ch : Char) : Option Nat := b58Alphabet.findIdx? (fun c => c == ch)

/-- Little-endian base-58 digits of `n`; the first argument is fuel (any value
at least `n` gives the full digit string). -/
def b58DigitsAux : Nat → Nat → List Char
  | 0, _ => []
  | _ + 1, 0 => []
  | fuel + 1, n + 1 => b58Sym ((n + 1) % 58) :: b58DigitsAux fuel ((n + 1) / 58)

def countLeadZeros : List Nat → Nat
  | [] => 0
  | b :: rest => if b = 0 then countLeadZeros rest + 1 else 0

def bytesToNatBE (bs : List Nat) : Nat := bs.foldl (fun acc b => acc * 256 + b) 0

/-- btcsuite base58 encoding of a byte string. -/
def base58Encode (bs : List Nat) : Str :=
  List.replicate (countLeadZeros bs) '1' ++
    (b58DigitsAux (bytesToNatBE bs) (bytesToNatBE bs)).reverse

/-- Accumulating base-58 digit strings evaluation. -/
def b58Parse : Str → Nat → Option Nat
  | [], acc => some acc
  | ch :: rest, acc =>
    match b58Val ch with
    | some v => b58Parse rest (acc * 58 + v)
    | none => none

/-- Little-endian base-256 digits of `n` (minimal representation); the first
argument is fuel. -/
def natToBytesAux : Nat → Nat → List Nat
  | 0, _ => []
  | _ + 1, 0 => []
  | fuel + 1, n + 1 => ((n + 1) % 256) :: natToBytesAux fuel ((n + 1) / 256)

def countLeadOnes : Str → Nat
  | [] => 0
  | ch :: rest => if ch = '1' then countLeadOnes rest + 1 else 0

/-- btcsuite base58 decoding: one zero byte per leading `1`, then the parsed
big integer in big-endian minimal bytes. -/
def base58Decode (s : Str) : Option (List Nat) :=
  match b58Parse s 0 with
  | none => none
  | some n => some (List.replicate (countLeadOnes s) 0 ++ (natToBytesAux n n).reverse)

/-! ## Cipher suite constants -/

def chachaNonceSize : Nat := 12
def chachaKeySize : Nat := 32
def poly1305TagSize : Nat := 16

/-! ## Wire structures

Modelled from the spec: the struct declarations (`protected`, `recipient`,
`recipientHeader`, `legacyEnvelope`) live in a repository file that is not
among the provided sources; field names, order and casing follow the spec's
wire envelope and protected header (§6). -/

structure recipientHeader where
  KID : Str
  Sender : Str
  IV : Str
  deriving DecidableEq

structure recipient where
  EncryptedKey : Str
  Header : recipientHeader
  deriving DecidableEq

structure Protected where
  Enc : Str
  Typ : Str
  Alg : Str
  Recipients : List recipient
  deriving DecidableEq

structure legacyEnvelope where
  Protected : Str
  IV : Str
  CipherText : Str
  Tag : Str
  deriving DecidableEq

/-! ## JSON marshalling of the wire structures

Modelled from the spec: serialization is Go `encoding/json` on the wire
structs; for these fixed string-field structs it emits the fields in
declaration order with the exact names of the spec's wire format. -/

def lbChar : Char := Char.ofNat 123
def rbChar : Char := Char.ofNat 125
def rbkChar : Char := ']'
def commaChar : Char := ','

def litEnvP : Str := lbChar :: "\"protected\":\"".toList
def litIv : Str := ",\"iv\":\"".toList
def litCt : Str := ",\"ciphertext\":\"".toList
def litTagF : Str := ",\"tag\":\"".toList
def litEnvEnd : Str := [rbChar]

def marshalEnvelopeL (e : legacyEnvelope) : Str :=
  litEnvP ++ e.Protected ++ quoteChar ::
    (litIv ++ e.IV ++ quoteChar ::
      (litCt ++ e.CipherText ++ quoteChar ::
        (litTagF ++ e.Tag ++ quoteChar :: litEnvEnd)))

def litRecE : Str := lbChar :: "\"encrypted_key\":\"".toList
def litRecH : Str := ",\"header\":".toList ++ lbChar :: "\"kid\":\"".toList
def litRecS : Str := ",\"sender\":\"".toList
def litRecEnd : Str := [rbChar, rbChar]

def marshalRecipientL (r : recipient) : Str :=
  litRecE ++ r.EncryptedKey ++ quoteChar ::
    (litRecH ++ r.Header.KID ++ quoteChar ::
      (litRecS ++ r.Header.Sender ++ quoteChar ::
        (litIv ++ r.Header.IV ++ quoteChar :: litRecEnd)))

def marshalRecipientListL : List recipient → Str
  | [] => []
  | [r] => marshalRecipientL r
  | r :: r2 :: rest => marshalRecipientL r ++ commaChar :: marshalRecipientListL (r2 :: rest)

def litProtE : Str := lbChar :: "\"enc\":\"".toList
def litTyp : Str := ",\"typ\":\"".toList
def litAlg : Str := ",\"alg\":\"".toList
def litRecips : Str := ",\"recipients\":[".toList
def litRBrace : Str := [rbChar]

def marshalProtectedL (p : Protected) : Str :=
  litProtE ++ p.Enc ++ quoteChar ::
    (litTyp ++ p.Typ ++ quoteChar ::
      (litAlg ++ p.Alg ++ quoteChar ::
        (litRecips ++ marshalRecipientListL p.Recipients ++ rbkChar :: litRBrace)))

/-! ## Parsing the wire structures (spec-modelled envelope codec) -/

/-- Consume an expected literal from the front of the input. -/
def dropLit : Str → Str → Option Str
  | [], s => some s
  | _ :: _, [] => none
  | a :: lit, b :: s => if a = b then dropLit lit s else none

/-- Read characters up to (and consuming) the next quote. -/
def readQuoted : Str → Option (Str × Str)
  | [] => none
  | ch :: s =>
    if ch = quoteChar then some ([], s)
    else
      match readQuoted s with
      | some (v, rest) => some (ch :: v, rest)
      | none => none

/-- Modelled from the spec: parse the outer envelope JSON produced by
`marshalEnvelopeL`. -/
def parseEnvelope (s : Str) : Option legacyEnvelope :=
  match dropLit litEnvP s with
  | none => none
  | some s1 =>
    match readQuoted s1 with
    | none => none
    | some (a, s2) =>
      match dropLit litIv s2 with
      | none => none
      | some s3 =>
        match readQuoted s3 with
        | none => none
        | some (b, s4) =>
          match dropLit litCt s4 with
          | none => none
          | some s5 =>
            match readQuoted s5 with
            | none => none
            | some (c, s6) =>
              match dropLit litTagF s6 with
              | none => none
              | some s7 =>
                match readQuoted s7 with
                | none => none
                | some (d, s8) =>
                  if s8 = litEnvEnd then some ⟨a, b, c, d⟩ else none

/-- Parse one recipient object, returning it and the unconsumed tail. -/
def parseRecipientObj (s : Str) : Option (recipient × Str) :=
  match dropLit litRecE s with
  | none => none
  | some s1 =>
    match readQuoted s1 with
    | none => none
    | some (ek, s2) =>
      match dropLit litRecH s2 with
      | none => none
      | some s3 =>
        match readQuoted s3 with
        | none => none
        | some (kid, s4) =>
          match dropLit litRecS s4 with
          | none => none
          | some (s5) =>
            match readQuoted s5 with
            | none => none
            | some (snd, s6) =>
              match dropLit litIv s6 with
              | none => none
              | some s7 =>
                match readQuoted s7 with
                | none => none
                | some (iv, s8) =>
                  match dropLit litRecEnd s8 with
                  | none => none
                  | some rest => some (⟨ek, ⟨kid, snd, iv⟩⟩, rest)

/-- Parse a `]`-terminated comma-separated recipient list (the opening `[` is
already consumed); the first argument is fuel. -/
def parseRecipientListAux : Nat → Str → Option (List recipient × Str)
  | 0, _ => none
  | _ + 1, [] => none
  | fuel + 1, ch :: s =>
    if ch = rbkChar then some ([], s)
    else
      match parseRecipientObj (ch :: s) with
      | none => none
      | some (r, rest) =>
        match rest with
        | [] => none
        | c2 :: rest' =>
          if c2 = commaChar then
            match parseRecipientListAux fuel rest' with
            | some (rs, rem) => some (r :: rs, rem)
            | none => none
          else if c2 = rbkChar then some ([r], rest')
          else none

/-- Modelled from the spec: parse the protected-header JSON produced by
`marshalProtectedL`. -/
def parseProtected (s : Str) : Option Protected :=
  match dropLit litProtE s with
  | none => none
  | some s1 =>
    match readQuoted s1 with
    | none => none
    | some (enc, s2) =>
      match dropLit litTyp s2 with
      | none => none
      | some s3 =>
        match readQuoted s3 with
        | none => none
        | some (typ, s4) =>
          match dropLit litAlg s4 with
          | none => none
          | some s5 =>
            match readQuoted s5 with
            | none => none
            | some (alg, s6) =>
              match dropLit litRecips s6 with
              | none => none
              | some s7 =>
                match parseRecipientListAux s7.length s7 with
                | none => none
                | some (rs, rem) =>
                  if rem = litRBrace then some ⟨enc, typ, alg, rs⟩ else none

/-! ## The Crypter model -/

/-- Error kinds of the component (spec §7); each failing return site of the
source is tagged with the kind of the stage that failed, carrying the
collaborator's message. -/
inductive CryptoError where
  | invalidInput (msg : String)
  | randomness (msg : String)
  | keyConversion (msg : String)
  | boxOperation (msg : String)
  | serialization (msg : String)
  | recipientNotFound (msg : String)
  | authenticationFailure (msg : String)
  deriving DecidableEq

/-- Observable collaborator invocations of one call (randomness draws and
cryptographic operations), recorded in order. -/
inductive Op where
  | randRead (n : Nat)
  | convertKey (k : List Nat)
  | pubConvert (k : List Nat)
  | newBox
  | boxEasy (msg nonce theirPub myPub : List Nat)
  | boxSeal (msg theirPub : List Nat)
  | cipherSeal (key nonce pt aad : List Nat)
  deriving DecidableEq

/-- Mutable context of a call: the bytes the injected randomness source will
yield next, and the log of collaborator operations performed so far. -/
structure CState where
  pool : List Nat
  ops : List Op
  deriving DecidableEq

/-- Modelled from the spec: the collaborator contracts consumed by the core
(§6) — KMS key conversion, the `Easy`/`Seal` crypto box (plus their inverses
used by the Decrypter), the ChaCha20-Poly1305 AEAD, and the Ed25519
private-to-public pairing used to identify a recipient. -/
structure Collab where
  convertToEncryptionKey : List Nat → Except String (List Nat)
  publicEd25519toCurve25519 : List Nat → Except String (List Nat)
  privEd25519toCurve25519 : List Nat → Except String (List Nat)
  newCryptoBox : Except String Unit
  easy : List Nat → List Nat → List Nat → List Nat → Except String (List Nat)
  easyOpen : List Nat → List Nat → List Nat → List Nat → Except String (List Nat)
  sealBox : List Nat → List Nat → List Nat → Except String (List Nat × List Nat)
  sealOpen : List Nat → List Nat → Except String (List Nat)
  chachaSeal : List Nat → List Nat → List Nat → List Nat → List Nat
  chachaOpen : List Nat → List Nat → List Nat → List Nat → Except String (List Nat)
  pubOf : List Nat → List Nat

/-- Read `n` bytes from the randomness source: take them off the pool and log
the draw, or fail (leaving the state untouched) when the source is exhausted. -/
def readRand (n : Nat) (st : CState) : Except CryptoError (List Nat) × CState :=
  if n ≤ st.pool.length then
    (Except.ok (st.pool.take n), ⟨st.pool.drop n, st.ops ++ [Op.randRead n]⟩)
  else
    (Except.error (CryptoError.randomness "randomness source exhausted"), st)

/-- Model of `Crypter.buildRecipient`: draw a 24-byte wrap nonce, convert the
sender key via the KMS and the recipient key to curve form, box the CEK with
`Easy`, seal the base58 sender key anonymously to the recipient, and emit the
recipient entry with base64/base58 encodings as in the source. -/
def buildRecipient (c : Collab) (cek senderKey recKey : List Nat) (st : CState) :
    Except CryptoError recipient × CState :=
  match readRand 24 st with
  | (Except.error e, st1) => (Except.error e, st1)
  | (Except.ok nonce, st1) =>
    match c.convertToEncryptionKey senderKey with
    | Except.error m => (Except.error (CryptoError.keyConversion m), st1)
    | Except.ok senderEncKey =>
      let st2 : CState := ⟨st1.pool, st1.ops ++ [Op.convertKey senderKey]⟩
      match c.publicEd25519toCurve25519 recKey with
      | Except.error m => (Except.error (CryptoError.keyConversion m), st2)
      | Except.ok recEncKey =>
        let st3 : CState := ⟨st2.pool, st2.ops ++ [Op.pubConvert recKey]⟩
        match c.newCryptoBox with
        | Except.error m => (Except.error (CryptoError.boxOperation m), st3)
        | Except.ok _ =>
          let st4 : CState := ⟨st3.pool, st3.ops ++ [Op.newBox]⟩
          match c.easy cek nonce recEncKey senderEncKey with
          | Except.error m => (Except.error (CryptoError.boxOperation m), st4)
          | Except.ok encCEK =>
            let st5 : CState :=
              ⟨st4.pool, st4.ops ++ [Op.boxEasy cek nonce recEncKey senderEncKey]⟩
            match c.sealBox (charsToBytes (base58Encode senderKey)) recEncKey st5.pool with
            | Except.error m => (Except.error (CryptoError.boxOperation m), st5)
            | Except.ok (encSender, pool6) =>
              (Except.ok
                ⟨base64URLEncodeL encCEK,
                  ⟨base58Encode recKey, base64URLEncodeL encSender, base64URLEncodeL nonce⟩⟩,
               ⟨pool6,
                st5.ops ++ [Op.boxSeal (charsToBytes (base58Encode senderKey)) recEncKey]⟩)

/-- Model of `Crypter.buildRecipients`: build one entry per recipient key in
order; the first failure aborts the whole list. -/
def buildRecipients (c : Collab) (cek senderKey : List Nat)
    (recPubKeys : List (List Nat)) (st : CState) :
    Except CryptoError (List recipient) × CState :=
  match recPubKeys with
  | [] => (Except.ok [], st)
  | k :: rest =>
    match buildRecipient c cek senderKey k st with
    | (Except.error e, st') => (Except.error e, st')
    | (Except.ok r, st') =>
      match buildRecipients c cek senderKey rest st' with
      | (Except.error e, st'') => (Except.error e, st'')
      | (Except.ok rs, st'') => (Except.ok (r :: rs), st'')

/-- Model of `Crypter.buildEnvelope`: marshal the protected header, base64 it,
AEAD-seal the payload with the base64 header text as AAD (after the key-size
check of `chacha.New`), split the 16-byte tag off the tail, and marshal the
envelope. -/
def buildEnvelope (c : Collab) (nonce payload cek : List Nat) (p : Protected)
    (st : CState) : Except CryptoError Str × CState :=
  let protectedBytesJ := charsToBytes (marshalProtectedL p)
  let protectedB64 := base64URLEncodeL protectedBytesJ
  if cek.length = chachaKeySize then
    let symPld := c.chachaSeal cek nonce payload (charsToBytes protectedB64)
    let st1 : CState :=
      ⟨st.pool, st.ops ++ [Op.cipherSeal cek nonce payload (charsToBytes protectedB64)]⟩
    let tag := symPld.drop (symPld.length - poly1305TagSize)
    let cipherText := symPld.take (symPld.length - poly1305TagSize)
    (Except.ok (marshalEnvelopeL
      ⟨protectedB64, base64URLEncodeL nonce, base64URLEncodeL cipherText,
        base64URLEncodeL tag⟩), st1)
  else
    (Except.error (CryptoError.boxOperation "chacha20poly1305: bad key length"), st)

/-- Model of `Crypter.Encrypt`: reject an empty recipient list, draw the
payload nonce and the CEK, compute the (unused) base58 recipient key list,
build the recipient entries, assemble the protected header with the fixed
identifiers, and build the envelope. -/
def Encrypt (c : Collab) (payload sender : List Nat)
    (recipientPubKeys : List (List Nat)) (st : CState) :
    Except CryptoError Str × CState :=
  if recipientPubKeys.length = 0 then
    (Except.error
      (CryptoError.invalidInput "empty recipients keys, must have at least one recipient"), st)
  else
    match readRand chachaNonceSize st with
    | (Except.error e, st1) => (Except.error e, st1)
    | (Except.ok nonce, st1) =>
      match readRand chachaKeySize st1 with
      | (Except.error e, st2) => (Except.error e, st2)
      | (Except.ok cek, st2) =>
        let recKeys := recipientPubKeys.map (fun k => base58Encode k)
        match buildRecipients c cek sender recipientPubKeys st2 with
        | (Except.error e, st3) => (Except.error e, st3)
        | (Except.ok recipients, st3) =>
          let p : Protected :=
            ⟨"chacha20poly1305_ietf".toList, "JWM/1.0".toList, "Authcrypt".toList, recipients⟩
          buildEnvelope c nonce payload cek p st3

/-- `Encrypt` with the construction of the `recKeys` slice removed, otherwise
identical; used to state that the slice is dead code. -/
def EncryptNoRecKeys (c : Collab) (payload sender : List Nat)
    (recipientPubKeys : List (List Nat)) (st : CState) :
    Except CryptoError Str × CState :=
  if recipientPubKeys.length = 0 then
    (Except.error
      (CryptoError.invalidInput "empty recipients keys, must have at least one recipient"), st)
  else
    match readRand chachaNonceSize st with
    | (Except.error e, st1) => (Except.error e, st1)
    | (Except.ok nonce, st1) =>
      match readRand chachaKeySize st1 with
      | (Except.error e, st2) => (Except.error e, st2)
      | (Except.ok cek, st2) =>
        match buildRecipients c cek sender recipientPubKeys st2 with
        | (Except.error e, st3) => (Except.error e, st3)
        | (Except.ok recipients, st3) =>
          let p : Protected :=
            ⟨"chacha20poly1305_ietf".toList, "JWM/1.0".toList, "Authcrypt".toList, recipients⟩
          buildEnvelope c nonce payload cek p st3

/-- Modelled from the spec: the Decrypter component (§4.3) is not among the
provided sources. Parse the envelope, find the caller's recipient entry by
comparing key identifiers against the base58 encoding of the caller's own
public key, unseal the sender identity, open the wrapped CEK with the
authenticated box, and AEAD-open the payload with the transmitted base64
protected header as AAD. -/
def Decrypt (c : Collab) (envelope : Str) (ownPrivKey : List Nat) :
    Except CryptoError (List Nat × List Nat) :=
  match parseEnvelope envelope with
  | none => Except.error (CryptoError.serialization "invalid envelope")
  | some env =>
    match base64URLDecodeL env.Protected with
    | none => Except.error (CryptoError.serialization "invalid protected header encoding")
    | some protectedBytesJ =>
      match parseProtected (bytesToChars protectedBytesJ) with
      | none => Except.error (CryptoError.serialization "invalid protected header")
      | some prot =>
        let myKid := base58Encode (c.pubOf ownPrivKey)
        match prot.Recipients.find? (fun r => r.Header.KID == myKid) with
        | none => Except.error (CryptoError.recipientNotFound "no corresponding recipient key found")
        | some entry =>
          match c.privEd25519toCurve25519 ownPrivKey with
          | Except.error m => Except.error (CryptoError.keyConversion m)
          | Except.ok ownAgrPriv =>
            match base64URLDecodeL entry.Header.Sender with
            | none => Except.error (CryptoError.serialization "invalid sender encoding")
            | some encSender =>
              match c.sealOpen encSender ownAgrPriv with
              | Except.error m => Except.error (CryptoError.boxOperation m)
              | Except.ok senderB58Bytes =>
                match base58Decode (bytesToChars senderB58Bytes) with
                | none => Except.error (CryptoError.serialization "invalid sender key encoding")
                | some senderPub =>
                  match c.publicEd25519toCurve25519 senderPub with
                  | Except.error m => Except.error (CryptoError.keyConversion m)
                  | Except.ok senderAgrPub =>
                    match base64URLDecodeL entry.EncryptedKey,
                        base64URLDecodeL entry.Header.IV with
                    | some encCEK, some wrapNonce =>
                      match c.easyOpen encCEK wrapNonce senderAgrPub ownAgrPriv with
                      | Except.error m => Except.error (CryptoError.authenticationFailure m)
                      | Except.ok cek =>
                        match base64URLDecodeL env.IV, base64URLDecodeL env.CipherText,
                            base64URLDecodeL env.Tag with
                        | some nonce, some cipherText, some tag =>
                          match c.chachaOpen cek nonce (cipherText ++ tag)
                              (charsToBytes env.Protected) with
                          | Except.error m =>
                              Except.error (CryptoError.authenticationFailure m)
                          | Except.ok payload => Except.ok (payload, senderPub)
                        | _, _, _ =>
                            Except.error (CryptoError.serialization "invalid envelope encoding")
                    | _, _ =>
                        Except.error (CryptoError.serialization "invalid recipient encoding")

/-- Functional contracts of the collaborators: the box and AEAD inverses
(relative to the Ed25519 pairing and key conversions), the AEAD tag-size law,
and preservation of byte-valuedness. -/
structure Collab.Lawful (c : Collab) : Prop where
  easy_open : ∀ msg nonce senderPub recPriv sConv sAgr rAgrPub rAgrPriv box,
    c.convertToEncryptionKey senderPub = Except.ok sConv →
    c.publicEd25519toCurve25519 (c.pubOf recPriv) = Except.ok rAgrPub →
    c.publicEd25519toCurve25519 senderPub = Except.ok sAgr →
    c.privEd25519toCurve25519 recPriv = Except.ok rAgrPriv →
    c.easy msg nonce rAgrPub sConv = Except.ok box →
    c.easyOpen box nonce sAgr rAgrPriv = Except.ok msg
  seal_open : ∀ msg recPriv rAgrPub rAgrPriv pool sealed pool',
    c.publicEd25519toCurve25519 (c.pubOf recPriv) = Except.ok rAgrPub →
    c.privEd25519toCurve25519 recPriv = Except.ok rAgrPriv →
    c.sealBox msg rAgrPub pool = Except.ok (sealed, pool') →
    c.sealOpen sealed rAgrPriv = Except.ok msg
  chacha_open : ∀ key nonce pt aad,
    c.chachaOpen key nonce (c.chachaSeal key nonce pt aad) aad = Except.ok pt
  chacha_len : ∀ key nonce pt aad,
    (c.chachaSeal key nonce pt aad).length = pt.length + poly1305TagSize
  chacha_bytes : ∀ key nonce pt aad, allBytes key → allBytes nonce → allBytes pt →
    allBytes aad → allBytes (c.chachaSeal key nonce pt aad)
  easy_bytes : ∀ msg nonce theirPub myPub box, allBytes msg → allBytes nonce →
    allBytes theirPub → allBytes myPub →
    c.easy msg nonce theirPub myPub = Except.ok box → allBytes box
  seal_bytes : ∀ msg theirPub pool sealed pool', allBytes msg → allBytes theirPub →
    allBytes pool → c.sealBox msg theirPub pool = Except.ok (sealed, pool') →
    allBytes sealed ∧ allBytes pool'
  conv_bytes : ∀ k k', allBytes k → c.convertToEncryptionKey k = Except.ok k' → allBytes k'
  pubConv_bytes : ∀ k k', allBytes k →
    c.publicEd25519toCurve25519 k = Except.ok k' → allBytes k'

/-! ## Per-recipient characterization of a successful build -/

/-- What a successful `buildRecipient` run for key `rk` guarantees about the
emitted entry: a 24-byte wrap nonce was drawn, both key conversions succeeded,
the CEK was boxed with `easy`, the base58 sender key was sealed anonymously,
and the entry carries the base64/base58 encodings of those values. -/
def RecipSpecB (c : Collab) (cek senderKey rk : List Nat) (r : recipient) : Prop :=
  ∃ nonce sConv rEnc encCEK encSender pool0 pool',
    nonce.length = 24 ∧ allBytes nonce ∧ allBytes encCEK ∧ allBytes encSender ∧
    c.convertToEncryptionKey senderKey = Except.ok sConv ∧
    c.publicEd25519toCurve25519 rk = Except.ok rEnc ∧
    c.easy cek nonce rEnc sConv = Except.ok encCEK ∧
    c.sealBox (charsToBytes (base58Encode senderKey)) rEnc pool0 =
      Except.ok (encSender, pool') ∧
    r = ⟨base64URLEncodeL encCEK,
          ⟨base58Encode rk, base64URLEncodeL encSender, base64URLEncodeL nonce⟩⟩

/-! ## Concrete collaborator instances (used to witness the theorems) -/

/-- A functionally correct toy instance of the collaborators: conversions and
the Ed25519 pairing are the identity, boxes return their message, the AEAD
appends sixteen zero tag bytes. -/
def toyCollab : Collab where
  convertToEncryptionKey := fun k => Except.ok k
  publicEd25519toCurve25519 := fun k => Except.ok k
  privEd25519toCurve25519 := fun k => Except.ok k
  newCryptoBox := Except.ok ()
  easy := fun m _ _ _ => Except.ok m
  easyOpen := fun b _ _ _ => Except.ok b
  sealBox := fun m _ pool => Except.ok (m, pool)
  sealOpen := fun s _ => Except.ok s
  chachaSeal := fun _ _ p _ => p ++ List.replicate 16 0
  chachaOpen := fun _ _ ct _ => Except.ok (ct.take (ct.length - 16))
  pubOf := fun k => k

/-- A toy instance whose AEAD output determines key and nonce (its ciphertext
part is `key ++ nonce ++ plaintext`), used to witness the freshness theorem. -/
def toyCollabC9 : Collab :=
  { toyCollab with
    chachaSeal := fun k n p _ => k ++ n ++ p ++ List.replicate 16 0
    chachaOpen := fun _ _ _ _ => Except.error "unsupported" }

/-! ## Concrete inputs for the witnesses -/

def payload0 : List Nat := [104, 105, 33]
def sender0 : List Nat := [7, 8]
def keys0 : List (List Nat) := [[5], [9]]
def st0 : CState := ⟨(List.range 120).map (fun i => i % 251), []⟩

def encRun0 : Except CryptoError Str × CState := Encrypt toyCollab payload0 sender0 keys0 st0
def encOut0 : Str :=
  match encRun0.1 with
  | Except.ok o => o
  | Except.error _ => []
def encSt0 : CState := encRun0.2

def st9b : CState := ⟨(List.range 120).map (fun i => (i + 1) % 251), []⟩

def encRun9a : Except CryptoError Str × CState := Encrypt toyCollabC9 payload0 sender0 keys0 st0
def encOut9a : Str :=
  match encRun9a.1 with
  | Except.ok o => o
  | Except.error _ => []
def encRun9b : Except CryptoError Str × CState := Encrypt toyCollabC9 payload0 sender0 keys0 st9b
def encOut9b : Str :=
  match encRun9b.1 with
  | Except.ok o => o
  | Except.error _ => []

def cek7 : List Nat := List.replicate 32 1
def st7 : CState := ⟨List.range 40, []⟩
def recRun7 : Except CryptoError recipient × CState := buildRecipient toyCollab cek7 sender0 [5] st7
def rec7 : recipient :=
  match recRun7.1 with
  | Except.ok r => r
  | Except.error _ => ⟨[], ⟨[], [], []⟩⟩

/-! ## Abbreviations for the components of a successful run -/

/-- The fixed protected header of the source around a recipient list. -/
def protFixed (recips : List recipient) : Protected :=
  ⟨"chacha20poly1305_ietf".toList, "JWM/1.0".toList, "Authcrypt".toList, recips⟩

/-- The base64 text of the serialized protected header. -/
def protB64 (p : Protected) : Str := base64URLEncodeL (charsToBytes (marshalProtectedL p))

/-- The AEAD output sealed in `buildEnvelope`. -/
def symPldOf (c : Collab) (cek nonce payload : List Nat) (p : Protected) : List Nat :=
  c.chachaSeal cek nonce payload (charsToBytes (protB64 p))

/-- Leading ciphertext part of an AEAD output (all but the trailing tag). -/
def ctOf (l : List Nat) : List Nat := l.take (l.length - poly1305TagSize)

/-- Trailing 16-byte tag part of an AEAD output. -/
def tagOf (l : List Nat) : List Nat := l.drop (l.length - poly1305TagSize)

/-- The envelope structure a successful `buildEnvelope` marshals. -/
def envOf (c : Collab) (cek nonce payload : List Nat) (p : Protected) : legacyEnvelope :=
  ⟨protB64 p, base64URLEncodeL nonce, base64URLEncodeL (ctOf (symPldOf c cek nonce payload p)),
    base64URLEncodeL (tagOf (symPldOf c cek nonce payload p))⟩


/-! # Theorems -/

/-! ## Generic byte/text lemmas -/

theorem allBytes_take {l : List Nat} (h : allBytes l) (n : Nat) : allBytes (l.take n) :=
  fun b hb => h b (List.mem_of_mem_take hb)

theorem allBytes_drop {l : List Nat} (h : allBytes l) (n : Nat) : allBytes (l.drop n) :=
  fun b hb => h b (List.mem_of_mem_drop hb)

theorem allBytes_append {l1 l2 : List Nat} (h1 : allBytes l1) (h2 : allBytes l2) :
    allBytes (l1 ++ l2) := by
  intro b hb
  rcases List.mem_append.mp hb with h | h
  · exact h1 b h
  · exact h2 b h

theorem bytesToChars_charsToBytes (s : Str) : bytesToChars (charsToBytes s) = s := by
  induction s with
  | nil => rfl
  | cons c t ih =>
    simp only [charsToBytes, List.map_cons, bytesToChars, Char.ofNat_toNat] at *
    exact congrArg (c :: ·) ih

theorem charsToBytes_ascii {s : Str} (h : asciiStr s) : allBytes (charsToBytes s) := by
  intro b hb
  rcases List.mem_map.mp hb with ⟨c, hc, rfl⟩
  exact h c hc

/-! ## base64 properties -/

theorem b64_tbl : ∀ n, n < 64 → b64Val (b64Sym n) = some n ∧ b64Sym n ≠ padChar ∧
    b64Sym n ≠ quoteChar ∧ (b64Sym n).toNat < 256 := by decide

theorem b64Alphabet_length : b64Alphabet.length = 64 := by decide

theorem b64Sym_ne_quote (n : Nat) : b64Sym n ≠ quoteChar := by
  by_cases hn : n < 64
  · exact (b64_tbl n hn).2.2.1
  · unfold b64Sym
    rw [List.getD_eq_default]
    · decide
    · rw [b64Alphabet_length]; omega

theorem b64Sym_ascii (n : Nat) : (b64Sym n).toNat < 256 := by
  by_cases hn : n < 64
  · exact (b64_tbl n hn).2.2.2
  · unfold b64Sym
    rw [List.getD_eq_default]
    · decide
    · rw [b64Alphabet_length]; omega

theorem base64_noQuote (bs : List Nat) : noQuote (base64URLEncodeL bs) := by
  induction bs using base64URLEncodeL.induct with
  | case1 => intro ch h; cases h
  | case2 a =>
    intro ch h
    simp only [base64URLEncodeL, List.mem_cons, List.not_mem_nil, or_false] at h
    rcases h with rfl | rfl | rfl | rfl
    · exact b64Sym_ne_quote _
    · exact b64Sym_ne_quote _
    · decide
    · decide
  | case3 a b =>
    intro ch h
    simp only [base64URLEncodeL, List.mem_cons, List.not_mem_nil, or_false] at h
    rcases h with rfl | rfl | rfl | rfl
    · exact b64Sym_ne_quote _
    · exact b64Sym_ne_quote _
    · exact b64Sym_ne_quote _
    · decide
  | case4 a b c rest ih =>
    intro ch h
    simp only [base64URLEncodeL, List.mem_cons] at h
    rcases h with rfl | rfl | rfl | rfl | h
    · exact b64Sym_ne_quote _
    · exact b64Sym_ne_quote _
    · exact b64Sym_ne_quote _
    · exact b64Sym_ne_quote _
    · exact ih ch h

theorem base64_ascii (bs : List Nat) : asciiStr (base64URLEncodeL bs) := by
  induction bs using base64URLEncodeL.induct with
  | case1 => intro ch h; cases h
  | case2 a =>
    intro ch h
    simp only [base64URLEncodeL, List.mem_cons, List.not_mem_nil, or_false] at h
    rcases h with rfl | rfl | rfl | rfl
    · exact b64Sym_ascii _
    · exact b64Sym_ascii _
    · decide
    · decide
  | case3 a b =>
    intro ch h
    simp only [base64URLEncodeL, List.mem_cons, List.not_mem_nil, or_false] at h
    rcases h with rfl | rfl | rfl | rfl
    · exact b64Sym_ascii _
    · exact b64Sym_ascii _
    · exact b64Sym_ascii _
    · decide
  | case4 a b c rest ih =>
    intro ch h
    simp only [base64URLEncodeL, List.mem_cons] at h
    rcases h with rfl | rfl | rfl | rfl | h
    · exact b64Sym_ascii _
    · exact b64Sym_ascii _
    · exact b64Sym_ascii _
    · exact b64Sym_ascii _
    · exact ih ch h

theorem base64_decode_encode {bs : List Nat} (h : allBytes bs) :
    base64URLDecodeL (base64URLEncodeL bs) = some bs := by
  induction bs using base64URLEncodeL.induct with
  | case1 => rfl
  | case2 a =>
    have ha : a < 256 := h a (by simp)
    have h0 := (b64_tbl (a / 4) (by omega)).1
    have h1 := (b64_tbl (a % 4 * 16) (by omega)).1
    simp [base64URLEncodeL, base64URLDecodeL, h0, h1]
    omega
  | case3 a b =>
    have ha : a < 256 := h a (by simp)
    have hb : b < 256 := h b (by simp)
    have h0 := (b64_tbl (a / 4) (by omega)).1
    have h1 := (b64_tbl (a % 4 * 16 + b / 16) (by omega)).1
    have h2 := (b64_tbl (b % 16 * 4) (by omega)).1
    have h2p := (b64_tbl (b % 16 * 4) (by omega)).2.1
    simp [base64URLEncodeL, base64URLDecodeL, h0, h1, h2, h2p]
    omega
  | case4 a b c rest ih =>
    have ha : a < 256 := h a (by simp)
    have hb : b < 256 := h b (by simp)
    have hc : c < 256 := h c (by simp)
    have hrest : allBytes rest := by
      intro x hx; exact h x (by simp [hx])
    have h0 := (b64_tbl (a / 4) (by omega)).1
    have h1 := (b64_tbl (a % 4 * 16 + b / 16) (by omega)).1
    have h2 := (b64_tbl (b % 16 * 4 + c / 64) (by omega)).1
    have h3 := (b64_tbl (c % 64) (by omega)).1
    have h2p := (b64_tbl (b % 16 * 4 + c / 64) (by omega)).2.1
    have h3p := (b64_tbl (c % 64) (by omega)).2.1
    simp [base64URLEncodeL, base64URLDecodeL, h0, h1, h2, h3, h2p, h3p, ih hrest]
    omega

theorem base64_inj {a b : List Nat} (ha : allBytes a) (hb : allBytes b)
    (h : base64URLEncodeL a = base64URLEncodeL b) : a = b := by
  have h1 := base64_decode_encode ha
  have h2 := base64_decode_encode hb
  rw [h, h2] at h1
  exact ((Option.some.injEq _ _).mp h1).symm

/-! ## base58 properties -/

theorem b58_tbl : ∀ d, d < 58 → b58Val (b58Sym d) = some d ∧ (b58Sym d = '1' ↔ d = 0) ∧
    b58Sym d ≠ quoteChar ∧ (b58Sym d).toNat < 256 := by decide

theorem b58Alphabet_length : b58Alphabet.length = 58 := by decide

theorem b58Sym_ne_quote (n : Nat) : b58Sym n ≠ quoteChar := by
  by_cases hn : n < 58
  · exact (b58_tbl n hn).2.2.1
  · unfold b58Sym
    rw [List.getD_eq_default]
    · decide
    · rw [b58Alphabet_length]; omega

theorem b58Sym_ascii (n : Nat) : (b58Sym n).toNat < 256 := by
  by_cases hn : n < 58
  · exact (b58_tbl n hn).2.2.2
  · unfold b58Sym
    rw [List.getD_eq_default]
    · decide
    · rw [b58Alphabet_length]; omega

theorem b58DigitsAux_zero (fuel : Nat) : b58DigitsAux fuel 0 = [] := by
  cases fuel <;> rfl

theorem b58Digits_mem (fuel : Nat) : ∀ (n : Nat), ∀ ch ∈ b58DigitsAux fuel n,
    ∃ d, d < 58 ∧ ch = b58Sym d := by
  induction fuel with
  | zero => intro n ch h; cases h
  | succ fuel ih =>
    intro n ch h
    cases n with
    | zero => cases h
    | succ m =>
      simp only [b58DigitsAux, List.mem_cons] at h
      rcases h with rfl | h
      · exact ⟨(m + 1) % 58, by omega, rfl⟩
      · exact ih _ ch h

theorem base58_noQuote (bs : List Nat) : noQuote (base58Encode bs) := by
  intro ch h
  unfold base58Encode at h
  rcases List.mem_append.mp h with h | h
  · rw [List.eq_of_mem_replicate h]; decide
  · rcases b58Digits_mem _ _ ch (List.mem_reverse.mp h) with ⟨d, _, rfl⟩
    exact b58Sym_ne_quote d

theorem base58_ascii (bs : List Nat) : asciiStr (base58Encode bs) := by
  intro ch h
  unfold base58Encode at h
  rcases List.mem_append.mp h with h | h
  · rw [List.eq_of_mem_replicate h]; decide
  · rcases b58Digits_mem _ _ ch (List.mem_reverse.mp h) with ⟨d, _, rfl⟩
    exact b58Sym_ascii d

theorem b58Parse_append (xs ys : Str) (acc : Nat) :
    b58Parse (xs ++ ys) acc =
      match b58Parse xs acc with
      | some a => b58Parse ys a
      | none => none := by
  induction xs generalizing acc with
  | nil => rfl
  | cons ch t ih =>
    cases hv : b58Val ch with
    | none => simp [b58Parse, hv]
    | some v =>
      simp only [List.cons_append, b58Parse, hv]
      exact ih _

theorem b58Parse_digits (fuel : Nat) : ∀ n acc, n ≤ fuel →
    b58Parse ((b58DigitsAux fuel n).reverse) acc =
      some (acc * 58 ^ (b58DigitsAux fuel n).length + n) := by
  induction fuel with
  | zero =>
    intro n acc hn
    have : n = 0 := by omega
    subst this
    simp [b58DigitsAux, b58Parse]
  | succ fuel ih =>
    intro n acc hn
    cases n with
    | zero => simp [b58DigitsAux_zero, b58Parse]
    | succ m =>
      have hq : (m + 1) / 58 ≤ fuel := by
        have : (m + 1) / 58 < m + 1 := Nat.div_lt_self (by omega) (by omega)
        omega
      have hv := (b58_tbl ((m + 1) % 58) (by omega)).1
      simp only [b58DigitsAux, List.reverse_cons]
      rw [b58Parse_append, ih _ acc hq]
      simp only [b58Parse, hv, List.length_cons, pow_succ]
      congr 1
      have h58 : (m + 1) / 58 * 58 + (m + 1) % 58 = m + 1 := by omega
      calc (acc * 58 ^ (b58DigitsAux fuel ((m + 1) / 58)).length + (m + 1) / 58) * 58 +
            (m + 1) % 58
          = acc * (58 ^ (b58DigitsAux fuel ((m + 1) / 58)).length * 58) +
              ((m + 1) / 58 * 58 + (m + 1) % 58) := by ring
        _ = acc * (58 ^ (b58DigitsAux fuel ((m + 1) / 58)).length * 58) + (m + 1) := by
              rw [h58]

theorem b58Digits_last (fuel : Nat) : ∀ n, 1 ≤ n → n ≤ fuel →
    ∃ ds dl, b58DigitsAux fuel n = ds ++ [dl] ∧ dl ≠ '1' := by
  induction fuel with
  | zero => intro n h1 h2; omega
  | succ fuel ih =>
    intro n h1 h2
    cases n with
    | zero => omega
    | succ m =>
      by_cases hq : (m + 1) / 58 = 0
      · refine ⟨[], b58Sym ((m + 1) % 58), ?_, ?_⟩
        · simp [b58DigitsAux, hq, b58DigitsAux_zero]
        · have hr : (m + 1) % 58 ≠ 0 := by omega
          have htbl := (b58_tbl ((m + 1) % 58) (by omega)).2.1
          intro hcon
          exact hr (htbl.mp hcon)
      · have h1' : 1 ≤ (m + 1) / 58 := by omega
        have h2' : (m + 1) / 58 ≤ fuel := by
          have : (m + 1) / 58 < m + 1 := Nat.div_lt_self (by omega) (by omega)
          omega
        rcases ih _ h1' h2' with ⟨ds, dl, hds, hdl⟩
        exact ⟨b58Sym ((m + 1) % 58) :: ds, dl, by simp [b58DigitsAux, hds], hdl⟩

theorem countLeadOnes_replicate (k : Nat) (rest : Str)
    (h : rest = [] ∨ ∃ c t, rest = c :: t ∧ c ≠ '1') :
    countLeadOnes (List.replicate k '1' ++ rest) = k := by
  induction k with
  | zero =>
    rcases h with rfl | ⟨c, t, rfl, hc⟩
    · rfl
    · simp [countLeadOnes, hc]
  | succ k ih => simp [List.replicate_succ, countLeadOnes, ih]

theorem b58Parse_ones (k : Nat) (s : Str) :
    b58Parse (List.replicate k '1' ++ s) 0 = b58Parse s 0 := by
  induction k with
  | zero => rfl
  | succ k ih =>
    have h1 : b58Val '1' = some 0 := by decide
    simp [List.replicate_succ, b58Parse, h1, ih]

theorem bytesToNatBE_replicate_zero (k : Nat) (rest : List Nat) :
    bytesToNatBE (List.replicate k 0 ++ rest) = bytesToNatBE rest := by
  induction k with
  | zero => rfl
  | succ k ih => simpa [List.replicate_succ, bytesToNatBE, List.foldl_cons] using ih

theorem bytesToNat_foldl_ge (t : List Nat) :
    ∀ a, a ≤ t.foldl (fun acc b => acc * 256 + b) a := by
  induction t with
  | nil => intro a; exact le_refl a
  | cons b t ih =>
    intro a
    refine le_trans ?_ (ih (a * 256 + b))
    have : a ≤ a * 256 := Nat.le_mul_of_pos_right a (by omega)
    omega

theorem bytesToNatBE_pos {h : Nat} {t : List Nat} (hh : h ≠ 0) :
    0 < bytesToNatBE (h :: t) := by
  unfold bytesToNatBE
  simp only [List.foldl_cons]
  have := bytesToNat_foldl_ge t (0 * 256 + h)
  omega

theorem bytesToNatBE_concat (xs : List Nat) (b : Nat) :
    bytesToNatBE (xs ++ [b]) = bytesToNatBE xs * 256 + b := by
  unfold bytesToNatBE
  rw [List.foldl_append]
  rfl

theorem natToBytesAux_zero (fuel : Nat) : natToBytesAux fuel 0 = [] := by
  cases fuel <;> rfl

theorem natToBytesAux_fuel (n : Nat) : ∀ f1 f2, n ≤ f1 → n ≤ f2 →
    natToBytesAux f1 n = natToBytesAux f2 n := by
  induction n using Nat.strong_induction_on with
  | _ n ih =>
    intro f1 f2 h1 h2
    cases n with
    | zero => rw [natToBytesAux_zero, natToBytesAux_zero]
    | succ m =>
      cases f1 with
      | zero => omega
      | succ f1 =>
        cases f2 with
        | zero => omega
        | succ f2 =>
          simp only [natToBytesAux]
          congr 1
          have hlt : (m + 1) / 256 < m + 1 := Nat.div_lt_self (by omega) (by omega)
          exact ih _ hlt _ _ (by omega) (by omega)

theorem natToBytes_bytesToNat (bs : List Nat) :
    allBytes bs → (∀ h t, bs = h :: t → h ≠ 0) →
    (natToBytesAux (bytesToNatBE bs) (bytesToNatBE bs)).reverse = bs := by
  induction bs using List.reverseRecOn with
  | nil => intro _ _; rfl
  | append_singleton xs b ih =>
    intro hbytes hhead
    have hb : b < 256 := hbytes b (by simp)
    have hxs : allBytes xs := fun x hx => hbytes x (by simp [hx])
    rw [bytesToNatBE_concat]
    cases xs with
    | nil =>
      have hb0 : b ≠ 0 := hhead b [] rfl
      obtain ⟨m, rfl⟩ : ∃ m, b = m + 1 := ⟨b - 1, by omega⟩
      have hz : bytesToNatBE [] = 0 := rfl
      rw [hz]
      have he : 0 * 256 + (m + 1) = m + 1 := by omega
      rw [he]
      simp only [natToBytesAux]
      have hm1 : (m + 1) % 256 = m + 1 := by omega
      have hm2 : (m + 1) / 256 = 0 := by omega
      rw [hm1, hm2, natToBytesAux_zero]
      simp
    | cons h t =>
      have hh0 : h ≠ 0 := hhead h (t ++ [b]) (by simp)
      have hw : 0 < bytesToNatBE (h :: t) := bytesToNatBE_pos hh0
      obtain ⟨m, hm⟩ : ∃ m, bytesToNatBE (h :: t) * 256 + b = m + 1 :=
        ⟨bytesToNatBE (h :: t) * 256 + b - 1, by omega⟩
      rw [hm]
      simp only [natToBytesAux]
      have hm1 : (m + 1) % 256 = b := by omega
      have hm2 : (m + 1) / 256 = bytesToNatBE (h :: t) := by omega
      rw [hm1, hm2]
      have hfuel : natToBytesAux m (bytesToNatBE (h :: t)) =
          natToBytesAux (bytesToNatBE (h :: t)) (bytesToNatBE (h :: t)) := by
        apply natToBytesAux_fuel
        · omega
        · exact le_refl _
      rw [hfuel]
      have hrec := ih hxs (by intro h' t' he'; injection he' with he1 he2; rw [← he1]; exact hh0)
      rw [List.reverse_cons, hrec]

theorem clz_decomp (bs : List Nat) :
    bs = List.replicate (countLeadZeros bs) 0 ++ bs.drop (countLeadZeros bs) ∧
    (bs.drop (countLeadZeros bs) = [] ∨
      ∃ h t, bs.drop (countLeadZeros bs) = h :: t ∧ h ≠ 0) := by
  induction bs with
  | nil => exact ⟨rfl, Or.inl rfl⟩
  | cons b t ih =>
    by_cases hb : b = 0
    · subst hb
      have hclz : countLeadZeros (0 :: t) = countLeadZeros t + 1 := by
        simp [countLeadZeros]
      rw [hclz]
      constructor
      · rw [List.replicate_succ, List.drop_succ_cons, List.cons_append]
        exact congrArg (0 :: ·) ih.1
      · rw [List.drop_succ_cons]
        exact ih.2
    · simp only [countLeadZeros, if_neg hb]
      exact ⟨by simp, Or.inr ⟨b, t, by simp, hb⟩⟩

theorem base58Decode_eq {s : Str} {n : Nat} (h : b58Parse s 0 = some n) :
    base58Decode s =
      some (List.replicate (countLeadOnes s) 0 ++ (natToBytesAux n n).reverse) := by
  unfold base58Decode
  rw [h]

theorem base58_decode_encode {bs : List Nat} (hby : allBytes bs) :
    base58Decode (base58Encode bs) = some bs := by
  obtain ⟨hdec, hrest⟩ := clz_decomp bs
  have hn : bytesToNatBE bs = bytesToNatBE (bs.drop (countLeadZeros bs)) := by
    conv_lhs => rw [hdec]
    exact bytesToNatBE_replicate_zero _ _
  have hrby : allBytes (bs.drop (countLeadZeros bs)) := allBytes_drop hby _
  rcases hrest with hre | ⟨hh, ht, hre, hh0⟩
  · -- no nonzero bytes: the value is zero and the digit string is empty
    have hz : bytesToNatBE bs = 0 := by rw [hn, hre]; rfl
    have henc : base58Encode bs = List.replicate (countLeadZeros bs) '1' := by
      unfold base58Encode
      rw [hz, b58DigitsAux_zero]
      simp
    have hparse0 : b58Parse (base58Encode bs) 0 = some 0 := by
      rw [henc]
      simpa using b58Parse_ones (countLeadZeros bs) []
    rw [base58Decode_eq hparse0, henc]
    have hclo : countLeadOnes (List.replicate (countLeadZeros bs) '1') = countLeadZeros bs := by
      simpa using countLeadOnes_replicate (countLeadZeros bs) [] (Or.inl rfl)
    rw [hclo, natToBytesAux_zero]
    conv_rhs => rw [hdec, hre]
    simp
  · -- a nonzero byte exists: positive value, nonempty digits, last digit nonzero
    have hpos : 0 < bytesToNatBE bs := by
      rw [hn, hre]; exact bytesToNatBE_pos hh0
    rcases b58Digits_last (bytesToNatBE bs) (bytesToNatBE bs) (by omega) (le_refl _)
      with ⟨ds, dl, hds, hdl⟩
    have hparse : b58Parse (base58Encode bs) 0 = some (bytesToNatBE bs) := by
      unfold base58Encode
      rw [b58Parse_ones]
      simpa using b58Parse_digits (bytesToNatBE bs) (bytesToNatBE bs) 0 (le_refl _)
    have hclo : countLeadOnes (base58Encode bs) = countLeadZeros bs := by
      unfold base58Encode
      apply countLeadOnes_replicate
      right
      exact ⟨dl, ds.reverse, by rw [hds]; simp, hdl⟩
    rw [base58Decode_eq hparse, hclo]
    have hrec : (natToBytesAux (bytesToNatBE bs) (bytesToNatBE bs)).reverse =
        bs.drop (countLeadZeros bs) := by
      rw [hn]
      apply natToBytes_bytesToNat _ hrby
      intro h' t' he'
      rw [hre] at he'
      injection he' with he1 _
      rw [← he1]; exact hh0
    rw [hrec, ← hdec]

theorem base58_inj {a b : List Nat} (ha : allBytes a) (hb : allBytes b)
    (h : base58Encode a = base58Encode b) : a = b := by
  have h1 := base58_decode_encode ha
  have h2 := base58_decode_encode hb
  rw [h, h2] at h1
  exact ((Option.some.injEq _ _).mp h1).symm

/-! ## Envelope codec round trip -/

theorem dropLit_append (lit s : Str) : dropLit lit (lit ++ s) = some s := by
  induction lit with
  | nil => rfl
  | cons a t ih => simp [dropLit, ih]

theorem readQuoted_append (v rest : Str) (hv : noQuote v) :
    readQuoted (v ++ quoteChar :: rest) = some (v, rest) := by
  induction v with
  | nil => simp [readQuoted]
  | cons c t ih =>
    have hc : c ≠ quoteChar := hv c (by simp)
    have ht : noQuote t := fun ch hch => hv ch (by simp [hch])
    simp [readQuoted, hc, ih ht]

theorem parseEnvelope_marshal (e : legacyEnvelope)
    (h1 : noQuote e.Protected) (h2 : noQuote e.IV) (h3 : noQuote e.CipherText)
    (h4 : noQuote e.Tag) : parseEnvelope (marshalEnvelopeL e) = some e := by
  unfold parseEnvelope marshalEnvelopeL
  simp only [List.append_assoc, List.cons_append]
  simp only [dropLit_append, readQuoted_append _ _ h1, readQuoted_append _ _ h2,
    readQuoted_append _ _ h3, readQuoted_append _ _ h4]
  simp only [if_true]

theorem parseRecipientObj_append (r : recipient) (tail : Str)
    (h1 : noQuote r.EncryptedKey) (h2 : noQuote r.Header.KID)
    (h3 : noQuote r.Header.Sender) (h4 : noQuote r.Header.IV) :
    parseRecipientObj (marshalRecipientL r ++ tail) = some (r, tail) := by
  unfold parseRecipientObj marshalRecipientL
  simp only [List.append_assoc, List.cons_append]
  simp only [dropLit_append, readQuoted_append _ _ h1, readQuoted_append _ _ h2,
    readQuoted_append _ _ h3, readQuoted_append _ _ h4]

theorem marshalRecipientL_cons (r : recipient) :
    marshalRecipientL r = lbChar ::
      ("\"encrypted_key\":\"".toList ++ r.EncryptedKey ++ quoteChar ::
        (litRecH ++ r.Header.KID ++ quoteChar ::
          (litRecS ++ r.Header.Sender ++ quoteChar ::
            (litIv ++ r.Header.IV ++ quoteChar :: litRecEnd)))) := by
  simp [marshalRecipientL, litRecE]

theorem marshalRecipientL_len (r : recipient) : 1 ≤ (marshalRecipientL r).length := by
  rw [marshalRecipientL_cons]
  simp

theorem marshalRecipientListL_len (rs : List recipient) :
    rs.length ≤ (marshalRecipientListL rs).length := by
  induction rs with
  | nil => simp [marshalRecipientListL]
  | cons r rest ih =>
    cases rest with
    | nil => simpa [marshalRecipientListL] using marshalRecipientL_len r
    | cons r2 t =>
      have hr := marshalRecipientL_len r
      simp only [marshalRecipientListL, List.length_append, List.length_cons] at *
      omega

theorem parseRecipientListAux_obj (f : Nat) (s : Str) (r : recipient) (rest : Str)
    (hobj : parseRecipientObj s = some (r, rest)) (hhead : ∃ s', s = lbChar :: s') :
    parseRecipientListAux (f + 1) s =
      (match rest with
       | [] => none
       | c2 :: rest' =>
         if c2 = commaChar then
           match parseRecipientListAux f rest' with
           | some (rs, rem) => some (r :: rs, rem)
           | none => none
         else if c2 = rbkChar then some ([r], rest')
         else none) := by
  obtain ⟨s', rfl⟩ := hhead
  have hne : lbChar ≠ rbkChar := by decide
  simp only [parseRecipientListAux, if_neg hne, hobj]
  cases rest with
  | nil => rfl
  | cons c2 rest' => rfl

theorem parseRecipientList_marshal (rs : List recipient) :
    ∀ (tail : Str) (fuel : Nat), rs.length + 1 ≤ fuel →
    (∀ r ∈ rs, noQuote r.EncryptedKey ∧ noQuote r.Header.KID ∧
      noQuote r.Header.Sender ∧ noQuote r.Header.IV) →
    parseRecipientListAux fuel (marshalRecipientListL rs ++ rbkChar :: tail) =
      some (rs, tail) := by
  induction rs with
  | nil =>
    intro tail fuel hfuel _
    obtain ⟨f, rfl⟩ : ∃ f, fuel = f + 1 := ⟨fuel - 1, by omega⟩
    simp [marshalRecipientListL, parseRecipientListAux]
  | cons r rest ih =>
    intro tail fuel hfuel hnq
    obtain ⟨f, rfl⟩ : ∃ f, fuel = f + 1 := ⟨fuel - 1, by omega⟩
    obtain ⟨hq1, hq2, hq3, hq4⟩ := hnq r (by simp)
    cases rest with
    | nil =>
      have hobj := parseRecipientObj_append r (rbkChar :: tail) hq1 hq2 hq3 hq4
      rw [show marshalRecipientListL [r] = marshalRecipientL r from rfl]
      rw [parseRecipientListAux_obj f _ r (rbkChar :: tail) hobj
        ⟨_, by rw [marshalRecipientL_cons]; rfl⟩]
      have hcm : rbkChar ≠ commaChar := by decide
      simp [hcm]
    | cons r2 t =>
      have hassoc : marshalRecipientListL (r :: r2 :: t) ++ rbkChar :: tail =
          marshalRecipientL r ++
            (commaChar :: (marshalRecipientListL (r2 :: t) ++ rbkChar :: tail)) := by
        simp [marshalRecipientListL]
      rw [hassoc]
      have hobj := parseRecipientObj_append r
        (commaChar :: (marshalRecipientListL (r2 :: t) ++ rbkChar :: tail)) hq1 hq2 hq3 hq4
      rw [parseRecipientListAux_obj f _ r _ hobj ⟨_, by rw [marshalRecipientL_cons]; rfl⟩]
      have hih := ih tail f (by simpa using Nat.le_of_succ_le_succ hfuel)
        (fun r' hr' => hnq r' (by simp [hr']))
      simp [hih]

theorem parseProtected_marshal (p : Protected)
    (h1 : noQuote p.Enc) (h2 : noQuote p.Typ) (h3 : noQuote p.Alg)
    (hr : ∀ r ∈ p.Recipients, noQuote r.EncryptedKey ∧ noQuote r.Header.KID ∧
      noQuote r.Header.Sender ∧ noQuote r.Header.IV) :
    parseProtected (marshalProtectedL p) = some p := by
  have hfuel : p.Recipients.length + 1 ≤
      (marshalRecipientListL p.Recipients ++ rbkChar :: litRBrace).length := by
    have := marshalRecipientListL_len p.Recipients
    simp only [List.length_append, List.length_cons]
    omega
  unfold parseProtected marshalProtectedL
  simp only [List.append_assoc, List.cons_append]
  simp only [dropLit_append, readQuoted_append _ _ h1, readQuoted_append _ _ h2,
    readQuoted_append _ _ h3,
    parseRecipientList_marshal p.Recipients litRBrace _ hfuel hr]
  simp only [if_true]

/-! ## Run decomposition of the Crypter model -/

theorem buildEnvelope_eq (c : Collab) (nonce payload cek : List Nat) (p : Protected)
    (st : CState) (hcek : cek.length = chachaKeySize) :
    buildEnvelope c nonce payload cek p st =
      (Except.ok (marshalEnvelopeL (envOf c cek nonce payload p)),
       ⟨st.pool, st.ops ++ [Op.cipherSeal cek nonce payload (charsToBytes (protB64 p))]⟩) := by
  simp [buildEnvelope, envOf, symPldOf, ctOf, tagOf, protB64, hcek]

theorem Encrypt_eq (c : Collab) (payload sender : List Nat) (keys : List (List Nat))
    (st : CState) (hk : keys.length ≠ 0) (h44 : 44 ≤ st.pool.length) :
    Encrypt c payload sender keys st =
      match buildRecipients c ((st.pool.drop 12).take 32) sender keys
        ⟨(st.pool.drop 12).drop 32, (st.ops ++ [Op.randRead 12]) ++ [Op.randRead 32]⟩ with
      | (Except.error e, st3) => (Except.error e, st3)
      | (Except.ok recips, st3) =>
          buildEnvelope c (st.pool.take 12) payload ((st.pool.drop 12).take 32)
            (protFixed recips) st3 := by
  have h12 : 12 ≤ st.pool.length := by omega
  have h32 : 32 ≤ (st.pool.drop 12).length := by rw [List.length_drop]; omega
  simp only [Encrypt, hk, if_neg hk, readRand, chachaNonceSize, chachaKeySize,
    if_pos h12, if_pos h32, protFixed, if_false]

theorem Encrypt_ok {c : Collab} {payload sender : List Nat} {keys : List (List Nat)}
    {st : CState} {out : Str} {st' : CState}
    (h : Encrypt c payload sender keys st = (Except.ok out, st')) :
    44 ≤ st.pool.length ∧ keys ≠ [] ∧
    ∃ recips st3,
      buildRecipients c ((st.pool.drop 12).take 32) sender keys
        ⟨(st.pool.drop 12).drop 32, (st.ops ++ [Op.randRead 12]) ++ [Op.randRead 32]⟩ =
        (Except.ok recips, st3) ∧
      out = marshalEnvelopeL
        (envOf c ((st.pool.drop 12).take 32) (st.pool.take 12) payload (protFixed recips)) ∧
      st' = ⟨st3.pool, st3.ops ++ [Op.cipherSeal ((st.pool.drop 12).take 32) (st.pool.take 12)
              payload (charsToBytes (protB64 (protFixed recips)))]⟩ := by
  by_cases hk : keys.length = 0
  · simp [Encrypt, hk] at h
  · by_cases h44 : 44 ≤ st.pool.length
    · rw [Encrypt_eq c payload sender keys st hk h44] at h
      rcases hb : buildRecipients c ((st.pool.drop 12).take 32) sender keys
          ⟨(st.pool.drop 12).drop 32, (st.ops ++ [Op.randRead 12]) ++ [Op.randRead 32]⟩
        with ⟨bres, st3⟩
      rw [hb] at h
      cases bres with
      | error e => simp at h
      | ok recips =>
        have hceklen : ((st.pool.drop 12).take 32).length = chachaKeySize := by
          rw [List.length_take, List.length_drop]
          simp only [chachaKeySize]
          omega
        have h2 : buildEnvelope c (st.pool.take 12) payload ((st.pool.drop 12).take 32)
            (protFixed recips) st3 = (Except.ok out, st') := h
        rw [buildEnvelope_eq c (st.pool.take 12) payload ((st.pool.drop 12).take 32)
          (protFixed recips) st3 hceklen] at h2
        obtain ⟨ho, hs⟩ := Prod.ext_iff.mp h2
        refine ⟨h44, fun hnil => hk (by simp [hnil]), recips, st3, rfl, ?_, ?_⟩
        · exact ((Except.ok.injEq _ _).mp ho).symm
        · exact hs.symm
    · by_cases h12 : 12 ≤ st.pool.length
      · have h32 : ¬ 32 ≤ st.pool.length - 12 := by omega
        simp [Encrypt, hk, readRand, chachaNonceSize, chachaKeySize, h12, h32] at h
      · simp [Encrypt, hk, readRand, chachaNonceSize, h12] at h

theorem buildRecipient_ok {c : Collab} {cek senderKey rk : List Nat} {st : CState}
    {r : recipient} {st' : CState}
    (h : buildRecipient c cek senderKey rk st = (Except.ok r, st')) :
    24 ≤ st.pool.length ∧
    ∃ sConv rEnc encCEK encSender pool',
      c.convertToEncryptionKey senderKey = Except.ok sConv ∧
      c.publicEd25519toCurve25519 rk = Except.ok rEnc ∧
      c.easy cek (st.pool.take 24) rEnc sConv = Except.ok encCEK ∧
      c.sealBox (charsToBytes (base58Encode senderKey)) rEnc (st.pool.drop 24) =
        Except.ok (encSender, pool') ∧
      st'.pool = pool' ∧
      r = ⟨base64URLEncodeL encCEK,
            ⟨base58Encode rk, base64URLEncodeL encSender,
              base64URLEncodeL (st.pool.take 24)⟩⟩ := by
  by_cases h24 : 24 ≤ st.pool.length
  · cases hconv : c.convertToEncryptionKey senderKey with
    | error m => simp [buildRecipient, readRand, h24, hconv] at h
    | ok sConv =>
      cases hpub : c.publicEd25519toCurve25519 rk with
      | error m => simp [buildRecipient, readRand, h24, hconv, hpub] at h
      | ok rEnc =>
        cases hbox : c.newCryptoBox with
        | error m => simp [buildRecipient, readRand, h24, hconv, hpub, hbox] at h
        | ok u =>
          cases heasy : c.easy cek (st.pool.take 24) rEnc sConv with
          | error m => simp [buildRecipient, readRand, h24, hconv, hpub, hbox, heasy] at h
          | ok encCEK =>
            cases hseal : c.sealBox (charsToBytes (base58Encode senderKey)) rEnc
                (st.pool.drop 24) with
            | error m =>
              simp [buildRecipient, readRand, h24, hconv, hpub, hbox, heasy, hseal] at h
            | ok pr =>
              obtain ⟨encSender, pool'⟩ := pr
              simp only [buildRecipient, readRand, if_pos h24, hconv, hpub, hbox, heasy,
                hseal, Prod.mk.injEq, Except.ok.injEq] at h
              obtain ⟨hr, hst⟩ := h
              refine ⟨h24, sConv, rEnc, encCEK, encSender, pool', rfl, rfl, heasy, hseal,
                ?_, ?_⟩
              · rw [← hst]
              · exact hr.symm
  · simp [buildRecipient, readRand, h24] at h

theorem buildRecipients_ok {c : Collab} {cek senderKey : List Nat}
    (hcb : ∀ k k', allBytes k → c.convertToEncryptionKey k = Except.ok k' → allBytes k')
    (hpb : ∀ k k', allBytes k → c.publicEd25519toCurve25519 k = Except.ok k' → allBytes k')
    (heb : ∀ msg nonce theirPub myPub box, allBytes msg → allBytes nonce → allBytes theirPub →
      allBytes myPub → c.easy msg nonce theirPub myPub = Except.ok box → allBytes box)
    (hsb : ∀ msg theirPub pool sealed pool', allBytes msg → allBytes theirPub →
      allBytes pool → c.sealBox msg theirPub pool = Except.ok (sealed, pool') →
      allBytes sealed ∧ allBytes pool')
    (hck : allBytes cek) (hsk : allBytes senderKey) :
    ∀ (keys : List (List Nat)) (st : CState) (rs : List recipient) (st' : CState),
    (∀ k ∈ keys, allBytes k) → allBytes st.pool →
    buildRecipients c cek senderKey keys st = (Except.ok rs, st') →
    List.Forall₂ (RecipSpecB c cek senderKey) keys rs ∧ allBytes st'.pool := by
  intro keys
  induction keys with
  | nil =>
    intro st rs st' hkeys hpool h
    simp only [buildRecipients, Prod.mk.injEq, Except.ok.injEq] at h
    obtain ⟨h1, h2⟩ := h
    subst h2
    rw [← h1]
    exact ⟨List.Forall₂.nil, hpool⟩
  | cons k krest ih =>
    intro st rs st' hkeys hpool h
    rcases hbr : buildRecipient c cek senderKey k st with ⟨res1, st1⟩
    cases res1 with
    | error e => simp [buildRecipients, hbr] at h
    | ok r1 =>
      rcases hbs : buildRecipients c cek senderKey krest st1 with ⟨res2, st2⟩
      cases res2 with
      | error e => simp [buildRecipients, hbr, hbs] at h
      | ok rs2 =>
        simp only [buildRecipients, hbr, hbs, Prod.mk.injEq, Except.ok.injEq] at h
        obtain ⟨hrs, hst⟩ := h
        obtain ⟨h24, sConv, rEnc, encCEK, encSender, pool', hconv, hpub, heasy, hseal,
          hstp, hr1⟩ := buildRecipient_ok hbr
        have hnb : allBytes (st.pool.take 24) := allBytes_take hpool _
        have hnl : (st.pool.take 24).length = 24 := by
          rw [List.length_take]; omega
        have hscb : allBytes sConv := hcb _ _ hsk hconv
        have hreb : allBytes rEnc := hpb _ _ (hkeys k (by simp)) hpub
        have hmsgb : allBytes (charsToBytes (base58Encode senderKey)) :=
          charsToBytes_ascii (base58_ascii senderKey)
        have hencb : allBytes encCEK := heb _ _ _ _ _ hck hnb hreb hscb heasy
        have hsealb := hsb _ _ _ _ _ hmsgb hreb (allBytes_drop hpool _) hseal
        have hspec : RecipSpecB c cek senderKey k r1 :=
          ⟨st.pool.take 24, sConv, rEnc, encCEK, encSender, st.pool.drop 24, pool',
            hnl, hnb, hencb, hsealb.1, hconv, hpub, heasy, hseal, hr1⟩
        have hst1 : allBytes st1.pool := by rw [hstp]; exact hsealb.2
        have hrest := ih st1 rs2 st2 (fun k' hk' => hkeys k' (by simp [hk'])) hst1 hbs
        subst hst
        rw [← hrs]
        exact ⟨List.Forall₂.cons hspec hrest.1, hrest.2⟩

/-! ## Character bounds of the marshalled header -/

theorem asciiStr_append {s t : Str} (hs : asciiStr s) (ht : asciiStr t) :
    asciiStr (s ++ t) := by
  intro ch hch
  rcases List.mem_append.mp hch with h | h
  · exact hs ch h
  · exact ht ch h

theorem asciiStr_cons {c : Char} {t : Str} (hc : c.toNat < 256) (ht : asciiStr t) :
    asciiStr (c :: t) := by
  intro ch hch
  rcases List.mem_cons.mp hch with rfl | h
  · exact hc
  · exact ht ch h

theorem marshalRecipient_ascii (r : recipient)
    (h1 : asciiStr r.EncryptedKey) (h2 : asciiStr r.Header.KID)
    (h3 : asciiStr r.Header.Sender) (h4 : asciiStr r.Header.IV) :
    asciiStr (marshalRecipientL r) := by
  have hq : quoteChar.toNat < 256 := by decide
  unfold marshalRecipientL
  exact asciiStr_append (asciiStr_append (by decide) h1)
    (asciiStr_cons hq (asciiStr_append (asciiStr_append (by decide) h2)
      (asciiStr_cons hq (asciiStr_append (asciiStr_append (by decide) h3)
        (asciiStr_cons hq (asciiStr_append (asciiStr_append (by decide) h4)
          (asciiStr_cons hq (by decide))))))))

theorem marshalRecipientList_ascii (rs : List recipient)
    (h : ∀ r ∈ rs, asciiStr r.EncryptedKey ∧ asciiStr r.Header.KID ∧
      asciiStr r.Header.Sender ∧ asciiStr r.Header.IV) :
    asciiStr (marshalRecipientListL rs) := by
  induction rs using marshalRecipientListL.induct with
  | case1 => intro ch hch; cases hch
  | case2 r =>
    obtain ⟨h1, h2, h3, h4⟩ := h r (by simp)
    exact marshalRecipient_ascii r h1 h2 h3 h4
  | case3 r r2 rest ih =>
    obtain ⟨h1, h2, h3, h4⟩ := h r (by simp)
    refine asciiStr_append (marshalRecipient_ascii r h1 h2 h3 h4) (asciiStr_cons (by decide) ?_)
    exact ih (fun r' hr' => h r' (by simp at hr' ⊢; tauto))

theorem marshalProtected_ascii (p : Protected)
    (h1 : asciiStr p.Enc) (h2 : asciiStr p.Typ) (h3 : asciiStr p.Alg)
    (hr : ∀ r ∈ p.Recipients, asciiStr r.EncryptedKey ∧ asciiStr r.Header.KID ∧
      asciiStr r.Header.Sender ∧ asciiStr r.Header.IV) :
    asciiStr (marshalProtectedL p) := by
  have hq : quoteChar.toNat < 256 := by decide
  unfold marshalProtectedL
  exact asciiStr_append (asciiStr_append (by decide) h1)
    (asciiStr_cons hq (asciiStr_append (asciiStr_append (by decide) h2)
      (asciiStr_cons hq (asciiStr_append (asciiStr_append (by decide) h3)
        (asciiStr_cons hq (asciiStr_append
          (asciiStr_append (by decide) (marshalRecipientList_ascii p.Recipients hr))
          (asciiStr_cons (by decide) (by decide))))))))

/-! ## The toy collaborators satisfy the laws -/

theorem toyCollab_lawful : Collab.Lawful toyCollab := by
  constructor
  · intro msg nonce senderPub recPriv sConv sAgr rAgrPub rAgrPriv box _ _ _ _ h5
    simp only [toyCollab, Except.ok.injEq] at h5 ⊢
    exact h5.symm
  · intro msg recPriv rAgrPub rAgrPriv pool sealed pool' _ _ h3
    simp only [toyCollab, Except.ok.injEq, Prod.mk.injEq] at h3 ⊢
    exact h3.1.symm
  · intro key nonce pt aad
    simp only [toyCollab, List.length_append, List.length_replicate]
    have h : pt.length + 16 - 16 = pt.length := by omega
    rw [h, List.take_left]
  · intro key nonce pt aad
    simp only [toyCollab, List.length_append, List.length_replicate, poly1305TagSize]
  · intro key nonce pt aad _ _ hpt _
    simp only [toyCollab]
    refine allBytes_append hpt ?_
    intro b hb
    rw [List.eq_of_mem_replicate hb]
    omega
  · intro msg nonce theirPub myPub box hm _ _ _ h
    simp only [toyCollab, Except.ok.injEq] at h
    rw [← h]
    exact hm
  · intro msg theirPub pool sealed pool' hm _ hp h
    simp only [toyCollab, Except.ok.injEq, Prod.mk.injEq] at h
    exact ⟨h.1 ▸ hm, h.2 ▸ hp⟩
  · intro k k' hk h
    simp only [toyCollab, Except.ok.injEq] at h
    rw [← h]
    exact hk
  · intro k k' hk h
    simp only [toyCollab, Except.ok.injEq] at h
    rw [← h]
    exact hk

theorem buildRecipients_kids {c : Collab} {cek senderKey : List Nat} :
    ∀ (keys : List (List Nat)) (st : CState) (rs : List recipient) (st' : CState),
    buildRecipients c cek senderKey keys st = (Except.ok rs, st') →
    rs.map (fun r => r.Header.KID) = keys.map (fun k => base58Encode k) := by
  intro keys
  induction keys with
  | nil =>
    intro st rs st' h
    simp only [buildRecipients, Prod.mk.injEq, Except.ok.injEq] at h
    rw [← h.1]
    simp
  | cons k krest ih =>
    intro st rs st' h
    rcases hbr : buildRecipient c cek senderKey k st with ⟨res1, st1⟩
    cases res1 with
    | error e => simp [buildRecipients, hbr] at h
    | ok r1 =>
      rcases hbs : buildRecipients c cek senderKey krest st1 with ⟨res2, st2⟩
      cases res2 with
      | error e => simp [buildRecipients, hbr, hbs] at h
      | ok rs2 =>
        simp only [buildRecipients, hbr, hbs, Prod.mk.injEq, Except.ok.injEq] at h
        obtain ⟨h24, sConv, rEnc, encCEK, encSender, pool', _, _, _, _, _, hr1⟩ :=
          buildRecipient_ok hbr
        rw [← h.1, List.map_cons, List.map_cons, hr1, ih st1 rs2 st2 hbs]

/-! # Claim theorems -/

/-- C1: for every payload, sender key and state, `Encrypt` with an empty
recipient list returns exactly the InvalidInput error of the source and leaves
the state untouched: the randomness pool is unread and the operation log is
unchanged, so no randomness is drawn and no cryptographic operation runs. -/
theorem C1_empty_recipients (c : Collab) (payload sender : List Nat) (st : CState) :
    Encrypt c payload sender [] st =
      (Except.error (CryptoError.invalidInput
        "empty recipients keys, must have at least one recipient"), st) := rfl

/-- C10: the `recKeys` slice of base58-encoded recipient keys computed inside
`Encrypt` is never read afterwards: `Encrypt` agrees with the same function
with that construction removed, on every input. -/
theorem C10_recKeys_dead (c : Collab) (payload sender : List Nat)
    (keys : List (List Nat)) (st : CState) :
    Encrypt c payload sender keys st = EncryptNoRecKeys c payload sender keys st := rfl

/-- C7: a successful `buildRecipient` for recipient key `rk` draws a fresh
24-byte wrap nonce from the randomness source and emits exactly the entry with
kid the base58 encoding of `rk`, encrypted_key the base64 of the `Easy` box of
the CEK keyed by the KMS-converted sender key and the converted recipient key
under that nonce, sender the base64 of the anonymous seal of the base58 sender
key to the converted recipient key, and iv the base64 of the wrap nonce. -/
theorem C7_recipient_entry {c : Collab} {cek senderKey rk : List Nat} {st : CState}
    {r : recipient} {st' : CState}
    (h : buildRecipient c cek senderKey rk st = (Except.ok r, st')) :
    ∃ nonce sConv rEnc encCEK encSender pool',
      nonce = st.pool.take 24 ∧ nonce.length = 24 ∧
      c.convertToEncryptionKey senderKey = Except.ok sConv ∧
      c.publicEd25519toCurve25519 rk = Except.ok rEnc ∧
      c.easy cek nonce rEnc sConv = Except.ok encCEK ∧
      c.sealBox (charsToBytes (base58Encode senderKey)) rEnc (st.pool.drop 24) =
        Except.ok (encSender, pool') ∧
      r.Header.KID = base58Encode rk ∧
      r.EncryptedKey = base64URLEncodeL encCEK ∧
      r.Header.Sender = base64URLEncodeL encSender ∧
      r.Header.IV = base64URLEncodeL nonce := by
  obtain ⟨h24, sConv, rEnc, encCEK, encSender, pool', hconv, hpub, heasy, hseal, hstp, hr⟩ :=
    buildRecipient_ok h
  refine ⟨st.pool.take 24, sConv, rEnc, encCEK, encSender, pool', rfl, ?_, hconv, hpub,
    heasy, hseal, ?_, ?_, ?_, ?_⟩
  · rw [List.length_take]; omega
  all_goals rw [hr]

/-- C3: a successful `Encrypt` returns exactly the JSON envelope with the four
fields protected, iv, ciphertext and tag, whose values are the base64 of the
serialized protected header, of the drawn payload nonce, of the AEAD
ciphertext part, and of the AEAD tag part. -/
theorem C3_envelope_fields {c : Collab} {payload sender : List Nat}
    {keys : List (List Nat)} {st : CState} {out : Str} {st' : CState}
    (h : Encrypt c payload sender keys st = (Except.ok out, st')) :
    ∃ recips,
      out = marshalEnvelopeL
        ⟨base64URLEncodeL (charsToBytes (marshalProtectedL (protFixed recips))),
         base64URLEncodeL (st.pool.take 12),
         base64URLEncodeL (ctOf (symPldOf c ((st.pool.drop 12).take 32) (st.pool.take 12)
           payload (protFixed recips))),
         base64URLEncodeL (tagOf (symPldOf c ((st.pool.drop 12).take 32) (st.pool.take 12)
           payload (protFixed recips)))⟩ := by
  obtain ⟨_, _, recips, st3, _, hout, _⟩ := Encrypt_ok h
  exact ⟨recips, by rw [hout]; rfl⟩

/-- C4: the serialized protected header of a successful `Encrypt` carries
exactly the fixed identifiers enc = "chacha20poly1305_ietf", typ = "JWM/1.0",
alg = "Authcrypt", and one recipient entry per input key in input order: the
list of kids equals the list of base58-encoded input keys. -/
theorem C4_protected_header {c : Collab} {payload sender : List Nat}
    {keys : List (List Nat)} {st : CState} {out : Str} {st' : CState}
    (h : Encrypt c payload sender keys st = (Except.ok out, st')) :
    ∃ recips,
      out = marshalEnvelopeL
        (envOf c ((st.pool.drop 12).take 32) (st.pool.take 12) payload (protFixed recips)) ∧
      (protFixed recips).Enc = "chacha20poly1305_ietf".toList ∧
      (protFixed recips).Typ = "JWM/1.0".toList ∧
      (protFixed recips).Alg = "Authcrypt".toList ∧
      (protFixed recips).Recipients = recips ∧
      recips.map (fun r => r.Header.KID) = keys.map (fun k => base58Encode k) := by
  obtain ⟨_, _, recips, st3, hb, hout, _⟩ := Encrypt_ok h
  exact ⟨recips, hout, rfl, rfl, rfl, rfl, buildRecipients_kids keys _ recips st3 hb⟩

/-- C5: in a successful `Encrypt`, the envelope's protected field is exactly
the base64 encoding of the serialized protected header, and the AAD handed to
the payload AEAD (the last logged operation of the run) is exactly the byte
string of that same field. -/
theorem C5_aad_is_protected {c : Collab} {payload sender : List Nat}
    {keys : List (List Nat)} {st : CState} {out : Str} {st' : CState}
    (h : Encrypt c payload sender keys st = (Except.ok out, st')) :
    ∃ (e : legacyEnvelope) (recips : List recipient) (cek nonce : List Nat),
      out = marshalEnvelopeL e ∧
      e.Protected = base64URLEncodeL (charsToBytes (marshalProtectedL (protFixed recips))) ∧
      st'.ops.getLast? = some (Op.cipherSeal cek nonce payload (charsToBytes e.Protected)) := by
  obtain ⟨_, _, recips, st3, _, hout, hst⟩ := Encrypt_ok h
  refine ⟨envOf c ((st.pool.drop 12).take 32) (st.pool.take 12) payload (protFixed recips),
    recips, (st.pool.drop 12).take 32, st.pool.take 12, hout, rfl, ?_⟩
  rw [hst]
  simp only [List.getLast?_concat]
  rfl

/-- C6: in a successful `Encrypt`, the AEAD output is the ciphertext followed
by the 16-byte tag: the envelope stores the base64 of the leading part as
ciphertext and of the trailing 16 bytes as tag, and the stored ciphertext has
exactly the payload's length (given the AEAD's tag-size law). -/
theorem C6_tag_split {c : Collab} {payload sender : List Nat}
    {keys : List (List Nat)} {st : CState} {out : Str} {st' : CState}
    (hlen : ∀ key nonce pt aad,
      (c.chachaSeal key nonce pt aad).length = pt.length + poly1305TagSize)
    (h : Encrypt c payload sender keys st = (Except.ok out, st')) :
    ∃ recips symPld,
      symPld = symPldOf c ((st.pool.drop 12).take 32) (st.pool.take 12) payload
        (protFixed recips) ∧
      symPld = ctOf symPld ++ tagOf symPld ∧
      (tagOf symPld).length = poly1305TagSize ∧
      (ctOf symPld).length = payload.length ∧
      out = marshalEnvelopeL
        ⟨protB64 (protFixed recips), base64URLEncodeL (st.pool.take 12),
         base64URLEncodeL (ctOf symPld), base64URLEncodeL (tagOf symPld)⟩ := by
  obtain ⟨_, _, recips, st3, _, hout, _⟩ := Encrypt_ok h
  refine ⟨recips, _, rfl, ?_, ?_, ?_, hout⟩
  · exact (List.take_append_drop _ _).symm
  · simp only [tagOf, symPldOf, List.length_drop, hlen, poly1305TagSize]
    omega
  · simp only [ctOf, symPldOf, List.length_take, List.length_drop, hlen, poly1305TagSize]
    omega

theorem buildRecipients_error_at {c : Collab} {cek senderKey : List Nat} :
    ∀ (keys1 : List (List Nat)) (k : List Nat) (keys3 : List (List Nat))
      (st2 st3 : CState) (rs1 : List recipient) (e : CryptoError) (stE : CState),
    buildRecipients c cek senderKey keys1 st2 = (Except.ok rs1, st3) →
    buildRecipient c cek senderKey k st3 = (Except.error e, stE) →
    buildRecipients c cek senderKey (keys1 ++ k :: keys3) st2 = (Except.error e, stE) := by
  intro keys1
  induction keys1 with
  | nil =>
    intro k keys3 st2 st3 rs1 e stE hpre hfail
    simp only [buildRecipients, Prod.mk.injEq, Except.ok.injEq] at hpre
    obtain ⟨-, hst⟩ := hpre
    subst hst
    simp [buildRecipients, hfail]
  | cons k1 keys1x ih =>
    intro k keys3 st2 st3 rs1 e stE hpre hfail
    rcases hbr : buildRecipient c cek senderKey k1 st2 with ⟨res1, stm⟩
    cases res1 with
    | error e1 => simp [buildRecipients, hbr] at hpre
    | ok r1 =>
      rcases hbs : buildRecipients c cek senderKey keys1x stm with ⟨res2, st4⟩
      cases res2 with
      | error e2 => simp [buildRecipients, hbr, hbs] at hpre
      | ok rs2 =>
        simp only [buildRecipients, hbr, hbs, Prod.mk.injEq, Except.ok.injEq] at hpre
        obtain ⟨-, hst⟩ := hpre
        subst hst
        have hrec := ih k keys3 stm st4 rs2 e stE hbs hfail
        have hrec2 : buildRecipients c cek senderKey (List.append keys1x (k :: keys3)) stm =
            (Except.error e, stE) := hrec
        simp only [List.cons_append, buildRecipients, hbr, hrec, hrec2]

/-- C8: every failure aborts the whole `Encrypt` call with a stage-tagged error
and no result (the `Except` result carries no envelope on error, as the source
returns `nil, err` on every failure path): exhaustion of the randomness source
at either top-level draw or at the wrap-nonce draw of any recipient, a failure
while building a recipient at any position (propagated verbatim through
`buildRecipients` and `Encrypt`), and inside `buildRecipient` a key-conversion
failure of either conversion is tagged KeyConversion while a `NewCryptoBox`,
`Easy` or `Seal` box failure is tagged BoxOperation. -/
theorem C8_error_propagation (c : Collab) (payload sender : List Nat)
    (keys : List (List Nat)) (st : CState) (hne : keys ≠ []) :
    (st.pool.length < 12 →
      Encrypt c payload sender keys st =
        (Except.error (CryptoError.randomness "randomness source exhausted"), st)) ∧
    (12 ≤ st.pool.length → st.pool.length < 44 →
      (Encrypt c payload sender keys st).1 =
        Except.error (CryptoError.randomness "randomness source exhausted")) ∧
    (44 ≤ st.pool.length → ∀ e stE,
      buildRecipients c ((st.pool.drop 12).take 32) sender keys
        ⟨(st.pool.drop 12).drop 32, (st.ops ++ [Op.randRead 12]) ++ [Op.randRead 32]⟩ =
        (Except.error e, stE) →
      Encrypt c payload sender keys st = (Except.error e, stE)) ∧
    (∀ cek k krest st2 e st3,
      buildRecipient c cek sender k st2 = (Except.error e, st3) →
      buildRecipients c cek sender (k :: krest) st2 = (Except.error e, st3)) ∧
    (∀ cek rk st2 m, 24 ≤ st2.pool.length →
      c.convertToEncryptionKey sender = Except.error m →
      (buildRecipient c cek sender rk st2).1 =
        Except.error (CryptoError.keyConversion m)) ∧
    (∀ cek rk st2 m sConv, 24 ≤ st2.pool.length →
      c.convertToEncryptionKey sender = Except.ok sConv →
      c.publicEd25519toCurve25519 rk = Except.error m →
      (buildRecipient c cek sender rk st2).1 =
        Except.error (CryptoError.keyConversion m)) ∧
    (∀ cek rk st2 m sConv rEnc, 24 ≤ st2.pool.length →
      c.convertToEncryptionKey sender = Except.ok sConv →
      c.publicEd25519toCurve25519 rk = Except.ok rEnc →
      c.newCryptoBox = Except.ok () →
      c.easy cek (st2.pool.take 24) rEnc sConv = Except.error m →
      (buildRecipient c cek sender rk st2).1 =
        Except.error (CryptoError.boxOperation m)) ∧
    (∀ cek rk st2 m sConv rEnc encCEK, 24 ≤ st2.pool.length →
      c.convertToEncryptionKey sender = Except.ok sConv →
      c.publicEd25519toCurve25519 rk = Except.ok rEnc →
      c.newCryptoBox = Except.ok () →
      c.easy cek (st2.pool.take 24) rEnc sConv = Except.ok encCEK →
      c.sealBox (charsToBytes (base58Encode sender)) rEnc (st2.pool.drop 24) =
        Except.error m →
      (buildRecipient c cek sender rk st2).1 =
        Except.error (CryptoError.boxOperation m)) ∧
    (∀ cek rk st2, st2.pool.length < 24 →
      buildRecipient c cek sender rk st2 =
        (Except.error (CryptoError.randomness "randomness source exhausted"), st2)) ∧
    (∀ cek rk st2 m sConv rEnc, 24 ≤ st2.pool.length →
      c.convertToEncryptionKey sender = Except.ok sConv →
      c.publicEd25519toCurve25519 rk = Except.ok rEnc →
      c.newCryptoBox = Except.error m →
      (buildRecipient c cek sender rk st2).1 =
        Except.error (CryptoError.boxOperation m)) ∧
    (∀ cek keys1 k keys3 st2 st3 rs1 e stE,
      buildRecipients c cek sender keys1 st2 = (Except.ok rs1, st3) →
      buildRecipient c cek sender k st3 = (Except.error e, stE) →
      buildRecipients c cek sender (keys1 ++ k :: keys3) st2 = (Except.error e, stE)) ∧
    (44 ≤ st.pool.length → ∀ keys1 k keys3 st3 rs1 e stE,
      keys = keys1 ++ k :: keys3 →
      buildRecipients c ((st.pool.drop 12).take 32) sender keys1
        ⟨(st.pool.drop 12).drop 32, (st.ops ++ [Op.randRead 12]) ++ [Op.randRead 32]⟩ =
        (Except.ok rs1, st3) →
      buildRecipient c ((st.pool.drop 12).take 32) sender k st3 = (Except.error e, stE) →
      Encrypt c payload sender keys st = (Except.error e, stE)) := by
  have hk : keys.length ≠ 0 := fun h0 => hne (List.length_eq_zero.mp h0)
  refine ⟨?_, ?_, ?_, ?_, ?_, ?_, ?_, ?_, ?_, ?_, ?_, ?_⟩
  · intro h12
    have h12' : ¬ 12 ≤ st.pool.length := by omega
    simp [Encrypt, hk, readRand, chachaNonceSize, h12']
  · intro h12 h44
    have h32' : ¬ 32 ≤ st.pool.length - 12 := by omega
    simp [Encrypt, hk, readRand, chachaNonceSize, chachaKeySize, h12, h32']
  · intro h44 e stE hb
    rw [Encrypt_eq c payload sender keys st hk h44, hb]
  · intro cek k krest st2 e st3 hb
    simp [buildRecipients, hb]
  · intro cek rk st2 m h24 hcv
    simp [buildRecipient, readRand, h24, hcv]
  · intro cek rk st2 m sConv h24 hcv hpc
    simp [buildRecipient, readRand, h24, hcv, hpc]
  · intro cek rk st2 m sConv rEnc h24 hcv hpc hnb he
    simp [buildRecipient, readRand, h24, hcv, hpc, hnb, he]
  · intro cek rk st2 m sConv rEnc encCEK h24 hcv hpc hnb he hs
    simp [buildRecipient, readRand, h24, hcv, hpc, hnb, he, hs]
  · intro cek rk st2 h24
    have h24' : ¬ 24 ≤ st2.pool.length := by omega
    simp [buildRecipient, readRand, h24']
  · intro cek rk st2 m sConv rEnc h24 hcv hpc hnb
    simp [buildRecipient, readRand, h24, hcv, hpc, hnb]
  · intro cek keys1 k keys3 st2 st3 rs1 e stE hpre hfail
    exact buildRecipients_error_at keys1 k keys3 st2 st3 rs1 e stE hpre hfail
  · intro h44 keys1 k keys3 st3 rs1 e stE hsplit hpre hfail
    subst hsplit
    rw [Encrypt_eq c payload sender _ st hk h44]
    rw [buildRecipients_error_at keys1 k keys3 _ st3 rs1 e stE hpre hfail]

/-- C2: for every lawful collaborator instance, non-empty byte-valued payload,
sender key and recipient key list, decrypting a successful `Encrypt` envelope
with the private key of any recipient in the list returns exactly the payload
and the sender key. -/
theorem C2_encrypt_decrypt_roundtrip {c : Collab} (hl : Collab.Lawful c)
    {payload sender : List Nat} {keys : List (List Nat)} {st : CState}
    {out : Str} {st' : CState} {r priv rAgrPriv sAgr : List Nat}
    (hpl : payload ≠ []) (hpb : allBytes payload) (hsb : allBytes sender)
    (hkb : ∀ k ∈ keys, allBytes k) (hpool : allBytes st.pool)
    (henc : Encrypt c payload sender keys st = (Except.ok out, st'))
    (hr : r ∈ keys) (hpriv : c.pubOf priv = r)
    (hpc : c.privEd25519toCurve25519 priv = Except.ok rAgrPriv)
    (hsc : c.publicEd25519toCurve25519 sender = Except.ok sAgr) :
    Decrypt c out priv = Except.ok (payload, sender) := by
  obtain ⟨h44, hkeysne, recips, st3, hb, hout, hst⟩ := Encrypt_ok henc
  have hcekb : allBytes ((st.pool.drop 12).take 32) :=
    allBytes_take (allBytes_drop hpool _) _
  have hnonceb : allBytes (st.pool.take 12) := allBytes_take hpool _
  have hF := buildRecipients_ok hl.conv_bytes hl.pubConv_bytes hl.easy_bytes hl.seal_bytes
    hcekb hsb keys _ recips st3 hkb (allBytes_drop (allBytes_drop hpool _) _) hb
  -- field character properties of every built recipient entry
  have hfieldsQ : ∀ rc ∈ recips, noQuote rc.EncryptedKey ∧ noQuote rc.Header.KID ∧
      noQuote rc.Header.Sender ∧ noQuote rc.Header.IV := by
    intro rc hrc
    obtain ⟨⟨j, hj⟩, hget⟩ := List.mem_iff_get.mp hrc
    have hjk : j < keys.length := by rw [hF.1.length_eq]; exact hj
    have hspec := (List.forall₂_iff_get.mp hF.1).2 j hjk hj
    rw [hget] at hspec
    obtain ⟨nw, sc, re, ek, es, p0, p1, _, _, _, _, _, _, _, _, heq⟩ := hspec
    rw [heq]
    exact ⟨base64_noQuote ek, base58_noQuote _, base64_noQuote es, base64_noQuote nw⟩
  have hfieldsA : ∀ rc ∈ recips, asciiStr rc.EncryptedKey ∧ asciiStr rc.Header.KID ∧
      asciiStr rc.Header.Sender ∧ asciiStr rc.Header.IV := by
    intro rc hrc
    obtain ⟨⟨j, hj⟩, hget⟩ := List.mem_iff_get.mp hrc
    have hjk : j < keys.length := by rw [hF.1.length_eq]; exact hj
    have hspec := (List.forall₂_iff_get.mp hF.1).2 j hjk hj
    rw [hget] at hspec
    obtain ⟨nw, sc, re, ek, es, p0, p1, _, _, _, _, _, _, _, _, heq⟩ := hspec
    rw [heq]
    exact ⟨base64_ascii ek, base58_ascii _, base64_ascii es, base64_ascii nw⟩
  -- parse the envelope back
  have hparse : parseEnvelope out = some
      (envOf c ((st.pool.drop 12).take 32) (st.pool.take 12) payload (protFixed recips)) := by
    rw [hout]
    exact parseEnvelope_marshal _ (base64_noQuote _) (base64_noQuote _) (base64_noQuote _)
      (base64_noQuote _)
  have hprotA : asciiStr (marshalProtectedL (protFixed recips)) := by
    apply marshalProtected_ascii
    · exact (by decide : asciiStr ("chacha20poly1305_ietf".toList))
    · exact (by decide : asciiStr ("JWM/1.0".toList))
    · exact (by decide : asciiStr ("Authcrypt".toList))
    · exact hfieldsA
  have hdecP : base64URLDecodeL (protB64 (protFixed recips)) =
      some (charsToBytes (marshalProtectedL (protFixed recips))) :=
    base64_decode_encode (charsToBytes_ascii hprotA)
  have hparseP : parseProtected (bytesToChars (charsToBytes
      (marshalProtectedL (protFixed recips)))) = some (protFixed recips) := by
    rw [bytesToChars_charsToBytes]
    apply parseProtected_marshal
    · exact (by decide : noQuote ("chacha20poly1305_ietf".toList))
    · exact (by decide : noQuote ("JWM/1.0".toList))
    · exact (by decide : noQuote ("Authcrypt".toList))
    · exact hfieldsQ
  -- locate the caller's entry
  have hex : (recips.find? (fun rc => rc.Header.KID ==
      base58Encode (c.pubOf priv))).isSome := by
    rw [List.find?_isSome]
    obtain ⟨⟨j0, hj0⟩, hget0⟩ := List.mem_iff_get.mp hr
    have hj0' : j0 < recips.length := by rw [← hF.1.length_eq]; exact hj0
    refine ⟨recips.get ⟨j0, hj0'⟩, List.get_mem _ _ _, ?_⟩
    have hspec := (List.forall₂_iff_get.mp hF.1).2 j0 hj0 hj0'
    obtain ⟨nw, sc, re, ek, es, p0, p1, _, _, _, _, _, _, _, _, heq⟩ := hspec
    rw [heq, hpriv, hget0]
    exact beq_self_eq_true _
  obtain ⟨entry, hfind⟩ := Option.isSome_iff_exists.mp hex
  have hpred := List.find?_some hfind
  have hmem := List.mem_of_find?_eq_some hfind
  obtain ⟨⟨j', hj'⟩, hgetr⟩ := List.mem_iff_get.mp hmem
  have hj'k : j' < keys.length := by rw [hF.1.length_eq]; exact hj'
  have hspec : RecipSpecB c ((st.pool.drop 12).take 32) sender
      (keys.get ⟨j', hj'k⟩) entry := by
    have := (List.forall₂_iff_get.mp hF.1).2 j' hj'k hj'
    rwa [hgetr] at this
  obtain ⟨nonceW, sConv, rEnc, encCEK, encSender, pool0, pool', hnl, hnwb, hekb, hesb,
    hconv, hpub, heasy, hseal, hentry_eq⟩ := hspec
  have hkidr : entry.Header.KID = base58Encode r := by
    have hkk := beq_iff_eq.mp hpred
    rw [hkk, hpriv]
  have hkeq : keys.get ⟨j', hj'k⟩ = r := by
    apply base58_inj (hkb _ (List.get_mem _ _ _)) (hkb r hr)
    have hkid2 : entry.Header.KID = base58Encode (keys.get ⟨j', hj'k⟩) := by rw [hentry_eq]
    rw [← hkid2, hkidr]
  rw [hkeq] at hpub hentry_eq
  -- field decodes of the caller's entry
  have hdecEK : base64URLDecodeL entry.EncryptedKey = some encCEK := by
    rw [hentry_eq]; exact base64_decode_encode hekb
  have hdecSd : base64URLDecodeL entry.Header.Sender = some encSender := by
    rw [hentry_eq]; exact base64_decode_encode hesb
  have hdecWI : base64URLDecodeL entry.Header.IV = some nonceW := by
    rw [hentry_eq]; exact base64_decode_encode hnwb
  -- the box inverses
  have hsealOpen : c.sealOpen encSender rAgrPriv =
      Except.ok (charsToBytes (base58Encode sender)) := by
    apply hl.seal_open _ priv rEnc rAgrPriv pool0 _ pool'
    · rw [hpriv]; exact hpub
    · exact hpc
    · exact hseal
  have hb58s : base58Decode (bytesToChars (charsToBytes (base58Encode sender))) =
      some sender := by
    rw [bytesToChars_charsToBytes]
    exact base58_decode_encode hsb
  have heasyOpen : c.easyOpen encCEK nonceW sAgr rAgrPriv =
      Except.ok ((st.pool.drop 12).take 32) := by
    apply hl.easy_open _ nonceW sender priv sConv sAgr rEnc rAgrPriv _ hconv
    · rw [hpriv]; exact hpub
    · exact hsc
    · exact hpc
    · exact heasy
  -- payload AEAD fields
  have hsymb : allBytes (symPldOf c ((st.pool.drop 12).take 32) (st.pool.take 12)
      payload (protFixed recips)) := by
    apply hl.chacha_bytes _ _ _ _ hcekb hnonceb hpb
    exact charsToBytes_ascii (base64_ascii _)
  have hdecIV : base64URLDecodeL (base64URLEncodeL (st.pool.take 12)) =
      some (st.pool.take 12) := base64_decode_encode hnonceb
  have hdecCT : base64URLDecodeL (base64URLEncodeL (ctOf (symPldOf c
      ((st.pool.drop 12).take 32) (st.pool.take 12) payload (protFixed recips)))) =
      some (ctOf (symPldOf c ((st.pool.drop 12).take 32) (st.pool.take 12) payload
        (protFixed recips))) :=
    base64_decode_encode (allBytes_take hsymb _)
  have hdecTag : base64URLDecodeL (base64URLEncodeL (tagOf (symPldOf c
      ((st.pool.drop 12).take 32) (st.pool.take 12) payload (protFixed recips)))) =
      some (tagOf (symPldOf c ((st.pool.drop 12).take 32) (st.pool.take 12) payload
        (protFixed recips))) :=
    base64_decode_encode (allBytes_drop hsymb _)
  have hctTag : ctOf (symPldOf c ((st.pool.drop 12).take 32) (st.pool.take 12) payload
      (protFixed recips)) ++ tagOf (symPldOf c ((st.pool.drop 12).take 32)
        (st.pool.take 12) payload (protFixed recips)) =
      symPldOf c ((st.pool.drop 12).take 32) (st.pool.take 12) payload (protFixed recips) :=
    List.take_append_drop _ _
  have hchachaOpen : c.chachaOpen ((st.pool.drop 12).take 32) (st.pool.take 12)
      (symPldOf c ((st.pool.drop 12).take 32) (st.pool.take 12) payload (protFixed recips))
      (charsToBytes (protB64 (protFixed recips))) = Except.ok payload := by
    exact hl.chacha_open _ _ _ _
  -- assemble
  have hrecs : (protFixed recips).Recipients = recips := rfl
  unfold Decrypt
  rw [hparse]
  simp only [envOf, hdecP, hparseP, hrecs, hfind, hpc, hdecSd, hsealOpen, hb58s,
    hsc, hdecEK, hdecWI, heasyOpen, hdecIV, hdecCT, hdecTag, hctTag, hchachaOpen]

/-- C9: two `Encrypt` runs with the same payload, sender and recipients whose
randomness yields distinct payload nonces and distinct CEKs produce envelopes
with different ciphertexts and, for every recipient position, different
wrapped keys — given that the AEAD's ciphertext part distinguishes key/nonce
pairs and the `Easy` box distinguishes boxed secrets. -/
theorem C9_freshness {c : Collab} {payload sender : List Nat} {keys : List (List Nat)}
    {st1 st2 : CState} {out1 out2 : Str} {st1' st2' : CState}
    (hcb : ∀ k k', allBytes k → c.convertToEncryptionKey k = Except.ok k' → allBytes k')
    (hpb : ∀ k k', allBytes k → c.publicEd25519toCurve25519 k = Except.ok k' → allBytes k')
    (heb : ∀ msg nonce theirPub myPub box, allBytes msg → allBytes nonce →
      allBytes theirPub → allBytes myPub → c.easy msg nonce theirPub myPub = Except.ok box →
      allBytes box)
    (hslb : ∀ msg theirPub pool sealed pool', allBytes msg → allBytes theirPub →
      allBytes pool → c.sealBox msg theirPub pool = Except.ok (sealed, pool') →
      allBytes sealed ∧ allBytes pool')
    (hchb : ∀ key nonce pt aad, allBytes key → allBytes nonce → allBytes pt →
      allBytes aad → allBytes (c.chachaSeal key nonce pt aad))
    (hpayb : allBytes payload) (hsb : allBytes sender) (hkb : ∀ k ∈ keys, allBytes k)
    (hp1 : allBytes st1.pool) (hp2 : allBytes st2.pool)
    (hctInj : ∀ k k' n n' a a', k.length = 32 → k'.length = 32 → n.length = 12 →
      n'.length = 12 → ¬(k = k' ∧ n = n') →
      ctOf (c.chachaSeal k n payload a) ≠ ctOf (c.chachaSeal k' n' payload a'))
    (heInj : ∀ m m' n n' p p' q q' w w', c.easy m n p q = Except.ok w →
      c.easy m' n' p' q' = Except.ok w' → m ≠ m' → w ≠ w')
    (hnonce : st1.pool.take 12 ≠ st2.pool.take 12)
    (hcek : (st1.pool.drop 12).take 32 ≠ (st2.pool.drop 12).take 32)
    (henc1 : Encrypt c payload sender keys st1 = (Except.ok out1, st1'))
    (henc2 : Encrypt c payload sender keys st2 = (Except.ok out2, st2')) :
    ∃ e1 e2 : legacyEnvelope, out1 = marshalEnvelopeL e1 ∧ out2 = marshalEnvelopeL e2 ∧
      e1.CipherText ≠ e2.CipherText ∧
      ∃ recips1 recips2,
        e1.Protected = protB64 (protFixed recips1) ∧
        e2.Protected = protB64 (protFixed recips2) ∧
        recips1.length = keys.length ∧ recips2.length = keys.length ∧
        ∀ j (h1 : j < recips1.length) (h2 : j < recips2.length),
          (recips1.get ⟨j, h1⟩).EncryptedKey ≠ (recips2.get ⟨j, h2⟩).EncryptedKey := by
  obtain ⟨h44a, _, recips1, st31, hb1, hout1, _⟩ := Encrypt_ok henc1
  obtain ⟨h44b, _, recips2, st32, hb2, hout2, _⟩ := Encrypt_ok henc2
  have hcekb1 : allBytes ((st1.pool.drop 12).take 32) :=
    allBytes_take (allBytes_drop hp1 _) _
  have hcekb2 : allBytes ((st2.pool.drop 12).take 32) :=
    allBytes_take (allBytes_drop hp2 _) _
  have hF1 := buildRecipients_ok hcb hpb heb hslb hcekb1 hsb keys _ recips1 st31 hkb
    (allBytes_drop (allBytes_drop hp1 _) _) hb1
  have hF2 := buildRecipients_ok hcb hpb heb hslb hcekb2 hsb keys _ recips2 st32 hkb
    (allBytes_drop (allBytes_drop hp2 _) _) hb2
  refine ⟨_, _, hout1, hout2, ?_, recips1, recips2, rfl, rfl,
    hF1.1.length_eq.symm, hF2.1.length_eq.symm, ?_⟩
  · -- the ciphertext fields differ
    show base64URLEncodeL (ctOf (symPldOf c ((st1.pool.drop 12).take 32)
        (st1.pool.take 12) payload (protFixed recips1))) ≠
      base64URLEncodeL (ctOf (symPldOf c ((st2.pool.drop 12).take 32)
        (st2.pool.take 12) payload (protFixed recips2)))
    have hsb1 : allBytes (symPldOf c ((st1.pool.drop 12).take 32) (st1.pool.take 12)
        payload (protFixed recips1)) :=
      hchb _ _ _ _ hcekb1 (allBytes_take hp1 _) hpayb
        (charsToBytes_ascii (base64_ascii _))
    have hsb2 : allBytes (symPldOf c ((st2.pool.drop 12).take 32) (st2.pool.take 12)
        payload (protFixed recips2)) :=
      hchb _ _ _ _ hcekb2 (allBytes_take hp2 _) hpayb
        (charsToBytes_ascii (base64_ascii _))
    intro heq
    have hcteq := base64_inj (allBytes_take hsb1 _) (allBytes_take hsb2 _) heq
    refine hctInj ((st1.pool.drop 12).take 32) ((st2.pool.drop 12).take 32)
      (st1.pool.take 12) (st2.pool.take 12) _ _ ?_ ?_ ?_ ?_ ?_ hcteq
    · rw [List.length_take, List.length_drop]; omega
    · rw [List.length_take, List.length_drop]; omega
    · rw [List.length_take]; omega
    · rw [List.length_take]; omega
    · intro hand
      exact hcek hand.1
  · -- the wrapped keys differ at every position
    intro j h1 h2
    have hjk : j < keys.length := by rw [hF1.1.length_eq]; exact h1
    have hs1 := (List.forall₂_iff_get.mp hF1.1).2 j hjk h1
    have hs2 := (List.forall₂_iff_get.mp hF2.1).2 j hjk h2
    obtain ⟨nw1, sc1, re1, ek1, es1, p01, p11, _, _, hek1b, _, _, _, he1, _, heq1⟩ := hs1
    obtain ⟨nw2, sc2, re2, ek2, es2, p02, p12, _, _, hek2b, _, _, _, he2, _, heq2⟩ := hs2
    rw [heq1, heq2]
    intro hfe
    have := base64_inj hek1b hek2b hfe
    exact heInj _ _ _ _ _ _ _ _ _ _ he1 he2 hcek this

/-! ## Concrete runs for the witnesses -/

theorem encRun0_eq : Encrypt toyCollab payload0 sender0 keys0 st0 =
    (Except.ok encOut0, encSt0) := rfl

theorem recRun7_eq : buildRecipient toyCollab cek7 sender0 [5] st7 =
    (Except.ok rec7, recRun7.2) := rfl

theorem encRun9a_eq : Encrypt toyCollabC9 payload0 sender0 keys0 st0 =
    (Except.ok encOut9a, encRun9a.2) := rfl

theorem encRun9b_eq : Encrypt toyCollabC9 payload0 sender0 keys0 st9b =
    (Except.ok encOut9b, encRun9b.2) := rfl

/-! ## Witnesses -/

/-- Witness for C2: the concrete toy run decrypts back to the payload and
sender for the second recipient key. -/
theorem C2_witness : Decrypt toyCollab encOut0 [9] = Except.ok (payload0, sender0) :=
  @C2_encrypt_decrypt_roundtrip toyCollab toyCollab_lawful payload0 sender0 keys0 st0
    encOut0 encSt0 [9] [9] [9] sender0 (by decide) (by decide) (by decide) (by decide)
    (by decide) encRun0_eq (by decide) rfl rfl rfl

/-- Witness for C3 at the concrete toy run. -/
theorem C3_witness : ∃ recips,
    encOut0 = marshalEnvelopeL
      ⟨base64URLEncodeL (charsToBytes (marshalProtectedL (protFixed recips))),
       base64URLEncodeL (st0.pool.take 12),
       base64URLEncodeL (ctOf (symPldOf toyCollab ((st0.pool.drop 12).take 32)
         (st0.pool.take 12) payload0 (protFixed recips))),
       base64URLEncodeL (tagOf (symPldOf toyCollab ((st0.pool.drop 12).take 32)
         (st0.pool.take 12) payload0 (protFixed recips)))⟩ :=
  C3_envelope_fields encRun0_eq

/-- Witness for C4 at the concrete toy run. -/
theorem C4_witness : ∃ recips,
    encOut0 = marshalEnvelopeL
      (envOf toyCollab ((st0.pool.drop 12).take 32) (st0.pool.take 12) payload0
        (protFixed recips)) ∧
    (protFixed recips).Enc = "chacha20poly1305_ietf".toList ∧
    (protFixed recips).Typ = "JWM/1.0".toList ∧
    (protFixed recips).Alg = "Authcrypt".toList ∧
    (protFixed recips).Recipients = recips ∧
    recips.map (fun r => r.Header.KID) = keys0.map (fun k => base58Encode k) :=
  C4_protected_header encRun0_eq

/-- Witness for C5 at the concrete toy run. -/
theorem C5_witness : ∃ (e : legacyEnvelope) (recips : List recipient) (cek nonce : List Nat),
    encOut0 = marshalEnvelopeL e ∧
    e.Protected = base64URLEncodeL (charsToBytes (marshalProtectedL (protFixed recips))) ∧
    encSt0.ops.getLast? = some (Op.cipherSeal cek nonce payload0 (charsToBytes e.Protected)) :=
  C5_aad_is_protected encRun0_eq

/-- Witness for C6 at the concrete toy run. -/
theorem C6_witness : ∃ recips symPld,
    symPld = symPldOf toyCollab ((st0.pool.drop 12).take 32) (st0.pool.take 12) payload0
      (protFixed recips) ∧
    symPld = ctOf symPld ++ tagOf symPld ∧
    (tagOf symPld).length = poly1305TagSize ∧
    (ctOf symPld).length = payload0.length ∧
    encOut0 = marshalEnvelopeL
      ⟨protB64 (protFixed recips), base64URLEncodeL (st0.pool.take 12),
       base64URLEncodeL (ctOf symPld), base64URLEncodeL (tagOf symPld)⟩ :=
  C6_tag_split toyCollab_lawful.chacha_len encRun0_eq

/-- Witness for C7 at a concrete toy `buildRecipient` run. -/
theorem C7_witness : ∃ nonce sConv rEnc encCEK encSender pool',
    nonce = st7.pool.take 24 ∧ nonce.length = 24 ∧
    toyCollab.convertToEncryptionKey sender0 = Except.ok sConv ∧
    toyCollab.publicEd25519toCurve25519 [5] = Except.ok rEnc ∧
    toyCollab.easy cek7 nonce rEnc sConv = Except.ok encCEK ∧
    toyCollab.sealBox (charsToBytes (base58Encode sender0)) rEnc (st7.pool.drop 24) =
      Except.ok (encSender, pool') ∧
    rec7.Header.KID = base58Encode [5] ∧
    rec7.EncryptedKey = base64URLEncodeL encCEK ∧
    rec7.Header.Sender = base64URLEncodeL encSender ∧
    rec7.Header.IV = base64URLEncodeL nonce :=
  C7_recipient_entry recRun7_eq

/-- Witness for C8: an exhausted randomness source on the first draw makes the
whole call fail with the Randomness error and an unchanged state. -/
theorem C8_witness : Encrypt toyCollab [1] [2] [[3]] ⟨[7, 7, 7], []⟩ =
    (Except.error (CryptoError.randomness "randomness source exhausted"),
      ⟨[7, 7, 7], []⟩) :=
  (C8_error_propagation toyCollab [1] [2] [[3]] ⟨[7, 7, 7], []⟩ (by decide)).1 (by decide)

/-- Witness for C9: two concrete toy runs with shifted randomness pools yield
different ciphertext fields and different wrapped keys at both positions. -/
theorem C9_witness : ∃ e1 e2 : legacyEnvelope,
    encOut9a = marshalEnvelopeL e1 ∧ encOut9b = marshalEnvelopeL e2 ∧
    e1.CipherText ≠ e2.CipherText ∧
    ∃ recips1 recips2,
      e1.Protected = protB64 (protFixed recips1) ∧
      e2.Protected = protB64 (protFixed recips2) ∧
      recips1.length = keys0.length ∧ recips2.length = keys0.length ∧
      ∀ j (h1 : j < recips1.length) (h2 : j < recips2.length),
        (recips1.get ⟨j, h1⟩).EncryptedKey ≠ (recips2.get ⟨j, h2⟩).EncryptedKey := by
  have hid : ∀ k k' : List Nat, allBytes k →
      (Except.ok k : Except String (List Nat)) = Except.ok k' → allBytes k' := by
    intro k k' hk h
    rw [← (Except.ok.injEq _ _).mp h]
    exact hk
  refine @C9_freshness toyCollabC9 payload0 sender0 keys0 st0 st9b encOut9a encOut9b
    encRun9a.2 encRun9b.2 ?_ ?_ ?_ ?_ ?_ (by decide) (by decide) (by decide)
    (by decide) (by decide) ?_ ?_ (by decide) (by decide) encRun9a_eq encRun9b_eq
  · exact fun k k' hk h => hid k k' hk h
  · exact fun k k' hk h => hid k k' hk h
  · intro msg nonce theirPub myPub box hm _ _ _ h
    exact hid msg box hm h
  · intro msg theirPub pool sealed pool' hm _ hp h
    have heq := Prod.mk.injEq .. |>.mp ((Except.ok.injEq _ _).mp h)
    exact ⟨heq.1 ▸ hm, heq.2 ▸ hp⟩
  · intro key nonce pt aad hk hn hp _
    show allBytes (key ++ nonce ++ pt ++ List.replicate 16 0)
    refine allBytes_append (allBytes_append (allBytes_append hk hn) hp) ?_
    intro b hb
    rw [List.eq_of_mem_replicate hb]
    omega
  · intro k k' n n' a a' hk hk' hn hn' hne heq
    have hct : ∀ (k2 n2 : List Nat) (a2 : List Nat),
        ctOf (toyCollabC9.chachaSeal k2 n2 payload0 a2) = k2 ++ n2 ++ payload0 := by
      intro k2 n2 a2
      show ctOf (k2 ++ n2 ++ payload0 ++ List.replicate 16 0) = k2 ++ n2 ++ payload0
      unfold ctOf
      rw [List.length_append, List.length_replicate]
      have he : (k2 ++ n2 ++ payload0).length + 16 - poly1305TagSize =
          (k2 ++ n2 ++ payload0).length := by simp [poly1305TagSize]
      rw [he, List.take_left]
    rw [hct, hct] at heq
    have h1 := List.append_inj heq
      (by rw [List.length_append, List.length_append, hk, hk', hn, hn'])
    have h2 := List.append_inj h1.1 (by rw [hk, hk'])
    exact hne ⟨h2.1, h2.2⟩
  · intro m m' n n' p p' q q' w w' h h' hmm
    have e1 := (Except.ok.injEq _ _).mp h
    have e2 := (Except.ok.injEq _ _).mp h'
    rw [← e1, ← e2]
    exact hmm
